import Mathlib

/-!
Tedac: a verification development

Shallow embedding of the translation proxy `didntpot/tedac`:

* `tedac/latestmappings/item_aliases.go`: the item alias tables;
* `tedac.go`: the relay loops of `handleConn` (chunk transcoder, transfer rewriting, movement
  interception) and its ticker;
* `tedac/legacyprotocol/legacypacket/*.go`: the legacy packet codecs.

Machine integers are `Nat`/`Int` with explicit wrap-around, byte strings are `List Nat`,
Go maps are association lists with unique keys (item aliases) or functions (the biome cache).
-/

namespace Tedac

/-- A byte string (`[]byte`): every element stands for one `uint8`. -/
abbrev Bytes := List Nat

/-! ## `latestmappings/item_aliases.go` -/

namespace latestmappings

/-- A Go `map[string]string`: an association list; `set` keeps the keys unique. -/
abbrev GoMap := List (String × String)

/-- Map read `v, ok := m[key]`. -/
def GoMap.get : GoMap → String → Option String
  | [], _ => none
  | (k, v) :: m, key => if k = key then some v else GoMap.get m key

/-- Map write `m[key] = val`: overwrites the entry of `key`, or creates it. -/
def GoMap.set : GoMap → String → String → GoMap
  | [], key, val => [(key, val)]
  | (k, v) :: m, key, val =>
    if k = key then (key, val) :: m else (k, v) :: GoMap.set m key val

/-- The package-level variables `itemAliasMappings` and `reverseItemAliasMappings`. -/
structure Tables where
  itemAliasMappings : GoMap
  reverseItemAliasMappings : GoMap
deriving DecidableEq, Repr

/-- An iteration schedule: the entries that `for k, v := range m` produces, in order, for the
map `m` the loop starts on (Go leaves the order unspecified). -/
abbrev Schedule := GoMap → List (String × String)

/-- A schedule is fair when it produces every entry of the map exactly once, as Go does for a
map that the loop body does not change. -/
def Schedule.Fair (sched : Schedule) : Prop := ∀ m : GoMap, (sched m).Perm m

/-- First loop of `init`:
`for name, alias := range itemAliasMappings { itemAliasMappings["minecraft:"+name] = "minecraft:"+alias }`.
The loop body changes the map it ranges over, so Go may or may not produce the entries the loop
creates: `visit` lists the keys in the order in which they are produced, and each visit reads
the value the live map holds for the key. -/
def prefixLoop (visit : List (String × String)) (m : GoMap) : GoMap :=
  visit.foldl
    (fun acc e =>
      match acc.get e.1 with
      | some al => acc.set ("minecraft:" ++ e.1) ("minecraft:" ++ al)
      | none => acc)
    m

/-- Second loop of `init`:
`for alias, name := range itemAliasMappings { reverseItemAliasMappings[name] = alias }`. -/
def reverseLoop (visit : List (String × String)) (rev : GoMap) : GoMap :=
  visit.foldl (fun acc e => acc.set e.2 e.1) rev

/-- Effect of `nbt.UnmarshalEncoding(itemAliasesData, &itemAliasMappings, nbt.BigEndian)` on the
(empty) map: every decoded entry is assigned in decoding order. -/
def unmarshalInto (decoded : List (String × String)) (m : GoMap) : GoMap :=
  decoded.foldl (fun acc e => acc.set e.1 e.2) m

/-- The package initialiser `init`. `unmarshal` is the external NBT decoder applied to the
embedded `itemAliasesData` (`none` is a decoding error, on which `init` panics); `first` and
`second` are the iteration schedules of the two loops. -/
def init (first second : Schedule) (unmarshal : Bytes → Option (List (String × String)))
    (itemAliasesData : Bytes) : Option Tables :=
  match unmarshal itemAliasesData with
  | none => none
  | some decoded =>
    let m0 := unmarshalInto decoded []
    let fwd := prefixLoop (first m0) m0
    some { itemAliasMappings := fwd, reverseItemAliasMappings := reverseLoop (second fwd) [] }

/-- Go `UpdatedItemNameFromAlias`: returns the result and the (untouched) package state. -/
def UpdatedItemNameFromAlias (st : Tables) (name : String) : (String × Bool) × Tables :=
  match st.itemAliasMappings.get name with
  | some updated => ((updated, true), st)
  | none => ((name, false), st)

/-- Go `AliasFromUpdatedItemName`: returns the result and the (untouched) package state. -/
def AliasFromUpdatedItemName (st : Tables) (name : String) : (String × Bool) × Tables :=
  match st.reverseItemAliasMappings.get name with
  | some al => ((al, true), st)
  | none => ((name, false), st)

/-- The keys of a map. -/
def GoMap.keys (m : GoMap) : List String := m.map Prod.fst

end latestmappings

/-- A `float32`, kept as its bit pattern: the code only stores, copies and serialises these values. -/
abbrev Float32 := Nat

/-- Go `mgl32.Vec3`. -/
structure Vec3 where
  x : Float32
  y : Float32
  z : Float32
deriving DecidableEq, Repr

/-! ## Machine integer conversions -/

/-- Go conversion `uint8(x)` of a signed integer: the low eight bits. -/
def toUint8 (x : Int) : Nat := (x % 256).toNat

/-- Go conversion `int8(x)`: the low eight bits, read as two's complement. -/
def toInt8 (x : Int) : Int := (x + 128) % 256 - 128

/-- Go conversion `uint16(x)` of a signed integer: the low sixteen bits. -/
def toUint16 (x : Int) : Nat := (x % 65536).toNat

/-- Go conversion `uint32(x)` of a length: the low thirty-two bits. -/
def toUint32 (x : Nat) : Nat := x % 4294967296

/-! ## Go standard library functions used by `tedac.go` -/

namespace gostd

/-- Index of the first occurrence of `c` in `s` (`bytealg.IndexByteString`), `none` for -1. -/
def indexByte : List Char → Char → Option Nat
  | [], _ => none
  | x :: xs, c => if x = c then some 0 else (indexByte xs c).map (· + 1)

/-- Index of the last occurrence of `c` in `s` (`bytealg.LastIndexByteString`). -/
def lastIndexByte : List Char → Char → Option Nat
  | [], _ => none
  | x :: xs, c =>
    match lastIndexByte xs c with
    | some i => some (i + 1)
    | none => if x = c then some 0 else none

/-- Go `net.SplitHostPort`; `none` stands for a non-nil error (host and port are then ""). -/
def SplitHostPort (hostport : String) : Option (String × String) :=
  let s := hostport.toList
  match lastIndexByte s ':' with
  | none => none
  | some i =>
    if s.head? = some '[' then
      match indexByte s ']' with
      | none => none
      | some e =>
        if e + 1 = s.length then none
        else if e + 1 = i then
          if (indexByte (s.drop 1) '[').isSome then none
          else if (indexByte (s.drop (e + 1)) ']').isSome then none
          else some (String.mk ((s.take e).drop 1), String.mk (s.drop (i + 1)))
        else none
    else
      let host := s.take i
      if (indexByte host ':').isSome then none
      else if (indexByte s '[').isSome then none
      else if (indexByte s ']').isSome then none
      else some (String.mk host, String.mk (s.drop (i + 1)))

/-- Value of a run of decimal digits, `none` when a character is not a digit. -/
def parseDigits : List Char → Nat → Option Nat
  | [], acc => some acc
  | c :: cs, acc => if c.isDigit then parseDigits cs (10 * acc + (c.toNat - 48)) else none

/-- Go `strconv.Atoi` on a 64-bit platform: the returned integer together with `err == nil`.
A syntax error returns 0, a range error returns the nearest `int64`. -/
def Atoi (str : String) : Int × Bool :=
  let s := str.toList
  let neg := s.head? = some '-'
  let body := if s.head? = some '-' ∨ s.head? = some '+' then s.drop 1 else s
  if body = [] then (0, false)
  else
    match parseDigits body 0 with
    | none => (0, false)
    | some n =>
      if neg then (if n ≤ 9223372036854775808 then (-(n : Int), true) else (-9223372036854775808, false))
      else (if n ≤ 9223372036854775807 then ((n : Int), true) else (9223372036854775807, false))

end gostd

/-! ## `tedac.go` -/

namespace bridge

/-- Go `cube.Range` of the world library: `[2]int`, the lowest and highest block height. -/
structure Range where
  min : Int
  max : Int
deriving DecidableEq, Repr

/-- Method `Range.Height` of the world library: `r[1] - r[0]`. -/
def Range.Height (r : Range) : Int := r.max - r.min

/-- Value of `world.Overworld.Range()` in the world library. -/
def overworldRange : Range := { min := -64, max := 319 }

/-- Constant `protocol.SubChunkRequestModeLimitless` (`math.MaxUint32`). -/
def SubChunkRequestModeLimitless : Nat := 4294967295

/-- Constant `protocol.SubChunkRequestModeLimited` (`math.MaxUint32 - 1`). -/
def SubChunkRequestModeLimited : Nat := 4294967294

/-- Constant `protocol.SubChunkResultSuccess`. -/
def SubChunkResultSuccess : Nat := 1

/-- Go `protocol.SubChunkEntry` (the fields the relay reads). -/
structure SubChunkEntry where
  /-- `protocol.SubChunkOffset`, a `[3]int8`. -/
  Offset : Int × Int × Int
  /-- A `byte`. -/
  Result : Nat
  RawPayload : Bytes
deriving DecidableEq, Repr

/-- Go `packet.MovePlayer` (the fields the relay reads). -/
structure MovePlayer where
  EntityRuntimeID : Nat
  Position : Vec3
  Pitch : Float32
  Yaw : Float32
  HeadYaw : Float32
deriving DecidableEq, Repr

/-- Go `packet.MoveActorAbsolute` and `packet.MoveActorDelta` (the fields the relay reads). -/
structure MoveActor where
  EntityRuntimeID : Nat
  Position : Vec3
  Rotation : Vec3
deriving DecidableEq, Repr

/-- Go `packet.PlayerAction`. -/
structure PlayerAction where
  EntityRuntimeID : Nat
  ActionType : Int
  BlockPosition : Int × Int × Int
  ResultPosition : Int × Int × Int
  BlockFace : Int
deriving DecidableEq, Repr

/-- Go `packet.SubChunk`. -/
structure SubChunk where
  CacheEnabled : Bool
  Dimension : Int
  /-- `protocol.SubChunkPos`, a `[3]int32`. -/
  Position : Int × Int × Int
  SubChunkEntries : List SubChunkEntry
deriving DecidableEq, Repr

/-- Go `packet.LevelChunk`. -/
structure LevelChunk where
  /-- `protocol.ChunkPos`, a `[2]int32`. -/
  Position : Int × Int
  Dimension : Int
  HighestSubChunk : Nat
  SubChunkCount : Nat
  CacheEnabled : Bool
  BlobHashes : List Nat
  RawPayload : Bytes
deriving DecidableEq, Repr

/-- Go `packet.SubChunkRequest`. -/
structure SubChunkRequest where
  Dimension : Int
  Position : Int × Int × Int
  Offsets : List (Int × Int × Int)
deriving DecidableEq, Repr

/-- Go `packet.Transfer`. -/
structure Transfer where
  Address : String
  Port : Nat
  ReloadWorld : Bool
deriving DecidableEq, Repr

/-- The packets the relay loops distinguish; every other packet type is `other`. -/
inductive Packet where
  | movePlayer (pk : MovePlayer)
  | moveActorAbsolute (pk : MoveActor)
  | moveActorDelta (pk : MoveActor)
  | playerAction (pk : PlayerAction)
  | subChunk (pk : SubChunk)
  | levelChunk (pk : LevelChunk)
  | subChunkRequest (pk : SubChunkRequest)
  | transfer (pk : Transfer)
  | other (id : Nat) (body : Bytes)
deriving DecidableEq, Repr

/-- The fields of `Tedac` the relay reads and writes. -/
structure Tedac where
  localAddress : String
  remoteAddress : String
deriving DecidableEq, Repr

/-- Go `Tedac.LocalAddress`: the errors of `net.SplitHostPort` are dropped. -/
def Tedac.LocalAddress (t : Tedac) : String :=
  match gostd.SplitHostPort t.localAddress with
  | some (address, _) => address
  | none => ""

/-- Go `Tedac.LocalPort`: the errors of `net.SplitHostPort` and `strconv.Atoi` are dropped. -/
def Tedac.LocalPort (t : Tedac) : Nat :=
  let str := match gostd.SplitHostPort t.localAddress with
    | some (_, str) => str
    | none => ""
  toUint16 (gostd.Atoi str).1

/-- Go `minecraft.GameData` (the fields `handleConn` reads). -/
structure GameData where
  EntityRuntimeID : Nat
  /-- Field `PlayerMovementSettings.MovementType`. -/
  MovementType : Int
  PlayerPosition : Vec3
  Pitch : Float32
  Yaw : Float32
  ChunkRadius : Int
deriving DecidableEq, Repr

/-- Constant `protocol.PlayerMovementModeClient`. -/
def PlayerMovementModeClient : Int := 0

/-- The local variables of `handleConn` that are fixed once the relay loops start. -/
structure ConnInfo where
  /-- Whether `conn.Protocol().(tedac.Protocol)` succeeds. -/
  tedacProtocol : Bool
  rid : Nat
  oldMovementSystem : Bool
  r : Range
  data : GameData
deriving DecidableEq, Repr

/-- Lines 222 to 228 of `handleConn`. -/
def ConnInfo.new (tedacProtocol : Bool) (data : GameData) : ConnInfo :=
  { tedacProtocol := tedacProtocol
    rid := data.EntityRuntimeID
    oldMovementSystem :=
      if tedacProtocol then true else decide (data.MovementType = PlayerMovementModeClient)
    r := overworldRange
    data := data }

/-- The mutable local variables of `handleConn` shared by its goroutines. -/
structure ConnState where
  pos : Vec3
  lastPos : Vec3
  yaw : Float32
  pitch : Float32
  startedSneaking : Bool
  stoppedSneaking : Bool
  startedSprinting : Bool
  stoppedSprinting : Bool
  startedGliding : Bool
  stoppedGliding : Bool
  startedSwimming : Bool
  stoppedSwimming : Bool
  startedJumping : Bool
  /-- A `map[protocol.ChunkPos][]byte`. -/
  biomeBufferCache : Int × Int → Option Bytes

/-- Lines 229 to 239 of `handleConn`. -/
def ConnState.new (data : GameData) : ConnState :=
  { pos := data.PlayerPosition
    lastPos := data.PlayerPosition
    yaw := data.Yaw
    pitch := data.Pitch
    startedSneaking := false
    stoppedSneaking := false
    startedSprinting := false
    stoppedSprinting := false
    startedGliding := false
    stoppedGliding := false
    startedSwimming := false
    stoppedSwimming := false
    startedJumping := false
    biomeBufferCache := fun _ => none }

/-- Go `delete(m, key)` on the biome cache. -/
def cacheDelete (m : Int × Int → Option Bytes) (key : Int × Int) : Int × Int → Option Bytes :=
  fun k => if k = key then none else m k

/-- Go `m[key] = val` on the biome cache. -/
def cacheStore (m : Int × Int → Option Bytes) (key : Int × Int) (val : Bytes) :
    Int × Int → Option Bytes :=
  fun k => if k = key then some val else m k

/-- The parts of package `tedac/chunk` and of the NBT library that the transcoder calls.
`S` is `*chunk.SubChunk`, `B` is a decoded block entity (`map[string]any`). -/
structure ChunkEnv (S B : Type) where
  /-- Constant `chunk.SubChunkVersion`. -/
  SubChunkVersion : Nat
  /-- Call `chunk.DecodeSubChunk(airRID, r, readBuf, &ind, chunk.NetworkEncoding)`: on success
  the sub chunk, the index written to `ind` and what is left of `readBuf`. -/
  DecodeSubChunk : Range → Bytes → Option (S × Nat × Bytes)
  /-- Call `chunk.EncodeSubChunk(sub, chunk.NetworkEncoding, r, ind)`. -/
  EncodeSubChunk : S → Range → Nat → Bytes
  /-- One call `dec.Decode(&blockEntity)` on the rest of the buffer; `none` is an error. -/
  nbtDecode : Bytes → Option (B × Bytes)
  /-- The bytes one call `enc.Encode(b)` appends (its error is dropped). -/
  nbtEncode : B → Bytes
  /-- A successful decode consumes input, so the decoding loop ends. -/
  nbtDecode_progress : ∀ buf b rest, nbtDecode buf = some (b, rest) → rest.length < buf.length

/-- The loop `for { if err := dec.Decode(&blockEntity); err != nil { break }; ... }`,
at most `fuel` iterations. -/
def drainBlockEntities {S B : Type} (env : ChunkEnv S B) : Nat → Bytes → List B
  | 0, _ => []
  | fuel + 1, buf =>
    match env.nbtDecode buf with
    | none => []
    | some (b, rest) => b :: drainBlockEntities env fuel rest

/-- The 3-byte placeholder written for an entry without data. -/
def airPlaceholder {S B : Type} (env : ChunkEnv S B) (entry : SubChunkEntry) : Bytes :=
  [env.SubChunkVersion, 0, toUint8 entry.Offset.2.1]

/-- One iteration of `for _, entry := range pk.SubChunkEntries` on `chunkBuf` and
`blockEntities`. -/
def transcodeEntry {S B : Type} (env : ChunkEnv S B) (r : Range)
    (acc : Bytes × List B) (entry : SubChunkEntry) : Bytes × List B :=
  if entry.Result ≠ SubChunkResultSuccess then
    (acc.1 ++ airPlaceholder env entry, acc.2)
  else
    match env.DecodeSubChunk r entry.RawPayload with
    | none => acc
    | some (sub, ind, readBuf) =>
      (acc.1 ++ env.EncodeSubChunk sub r ind,
        acc.2 ++ drainBlockEntities env (readBuf.length + 1) readBuf)

/-- The loop `for _, b := range blockEntities { _ = enc.Encode(b) }` on `chunkBuf`. -/
def encodeBlockEntities {S B : Type} (env : ChunkEnv S B) (chunkBuf : Bytes)
    (blockEntities : List B) : Bytes :=
  blockEntities.foldl (fun buf b => buf ++ env.nbtEncode b) chunkBuf

/-- The payload built by `case *packet.SubChunk` from the entries and the cached biome data. -/
def transcodePayload {S B : Type} (env : ChunkEnv S B) (r : Range)
    (entries : List SubChunkEntry) (biome : Option Bytes) : Bytes :=
  let acc := entries.foldl (transcodeEntry env r) ([], [])
  let chunkBuf := acc.1 ++ (biome.getD [] ++ [0])
  encodeBlockEntities env chunkBuf acc.2

/-- The offsets computed by `case *packet.LevelChunk`:
`for i := 0; i < max; i++ { offsets = append(offsets, protocol.SubChunkOffset{0, int8(i + (r[0] >> 4)), 0}) }`. -/
def requestOffsets (r : Range) (max : Int) : List (Int × Int × Int) :=
  (List.range max.toNat).map (fun (i : Nat) => (0, toInt8 ((i : Int) + (r.min >>> 4)), 0))

/-- What one iteration of a relay loop did: the new state and the packets handed to
`serverConn.WritePacket` and `conn.WritePacket`, in call order. -/
structure StepResult where
  t : Tedac
  st : ConnState
  toServer : List Packet
  toClient : List Packet

/-- One iteration of the server-to-client loop of `handleConn`, after `serverConn.ReadPacket`
returned `pk` without error. `none` is a run-time panic. -/
def serverToClient {S B : Type} (env : ChunkEnv S B) (info : ConnInfo) (t : Tedac)
    (st : ConnState) (pk : Packet) : Option StepResult :=
  let forward (t : Tedac) (st : ConnState) (pk : Packet) : Option StepResult :=
    some { t := t, st := st, toServer := [], toClient := [pk] }
  match pk with
  | .movePlayer p =>
    if !info.oldMovementSystem then forward t st pk
    else if p.EntityRuntimeID = info.rid then
      forward t { st with pos := p.Position, yaw := p.Yaw, pitch := p.Pitch } pk
    else forward t st pk
  | .moveActorAbsolute p =>
    if !info.oldMovementSystem then forward t st pk
    else if p.EntityRuntimeID = info.rid then
      forward t { st with pos := p.Position, yaw := p.Rotation.z, pitch := p.Rotation.x } pk
    else forward t st pk
  | .moveActorDelta p =>
    if !info.oldMovementSystem then forward t st pk
    else if p.EntityRuntimeID = info.rid then
      forward t { st with pos := p.Position, yaw := p.Rotation.z, pitch := p.Rotation.x } pk
    else forward t st pk
  | .subChunk p =>
    if !info.tedacProtocol then forward t st pk
    else
      let chunkPos : Int × Int := (p.Position.1, p.Position.2.2)
      let payload := transcodePayload env info.r p.SubChunkEntries (st.biomeBufferCache chunkPos)
      some
        { t := t
          st := { st with biomeBufferCache := cacheDelete st.biomeBufferCache chunkPos }
          toServer := []
          toClient :=
            [.levelChunk
              { Position := chunkPos
                Dimension := 0
                HighestSubChunk := 0
                SubChunkCount := toUint32 p.SubChunkEntries.length
                CacheEnabled := false
                BlobHashes := []
                RawPayload := payload }] }
  | .levelChunk p =>
    if p.SubChunkCount ≠ SubChunkRequestModeLimitless ∧ p.SubChunkCount ≠ SubChunkRequestModeLimited
    then forward t st pk
    else if !info.tedacProtocol then forward t st pk
    else
      let max : Int :=
        if p.SubChunkCount = SubChunkRequestModeLimited then (p.HighestSubChunk : Int)
        else info.r.Height >>> 4
      if max < 0 then none
      else if p.RawPayload.length = 0 then none
      else
        some
          { t := t
            st :=
              { st with
                biomeBufferCache :=
                  cacheStore st.biomeBufferCache p.Position
                    (p.RawPayload.take (p.RawPayload.length - 1)) }
            toServer :=
              [.subChunkRequest
                { Dimension := 0
                  Position := (p.Position.1, 0, p.Position.2)
                  Offsets := requestOffsets info.r max }]
            toClient := [] }
  | .transfer p =>
    let t' : Tedac := { t with remoteAddress := p.Address ++ ":" ++ toString p.Port }
    forward t' st (.transfer { p with Address := t'.LocalAddress, Port := t'.LocalPort })
  | _ => forward t st pk

/-- The bytes the entry loop of `case *packet.SubChunk` writes to an empty `chunkBuf` for the
entries `entries`. -/
def subChunkParts {S B : Type} (env : ChunkEnv S B) (r : Range)
    (entries : List SubChunkEntry) : Bytes :=
  (entries.foldl (transcodeEntry env r) ([], [])).1

/-- The block entities the entry loop of `case *packet.SubChunk` collects for `entries`. -/
def collectedBlockEntities {S B : Type} (env : ChunkEnv S B) (r : Range)
    (entries : List SubChunkEntry) : List B :=
  (entries.foldl (transcodeEntry env r) ([], [])).2

/-- The `LevelChunk` packets among the packets written to the client. -/
def levelChunksOf : List Packet → List LevelChunk
  | [] => []
  | .levelChunk p :: rest => p :: levelChunksOf rest
  | _ :: rest => levelChunksOf rest

/-! ### The client-to-server loop and the ticker -/

/-- The constants `legacypacket.PlayerActionJump` ... `legacypacket.PlayerActionStopGlide`
that the client-to-server loop switches on. -/
structure PlayerActions where
  Jump : Int
  StartSprint : Int
  StopSprint : Int
  StartSneak : Int
  StopSneak : Int
  StartSwimming : Int
  StopSwimming : Int
  StartGlide : Int
  StopGlide : Int
deriving DecidableEq, Repr

/-- The nine action types of the inner `switch pk.ActionType`, in case order. -/
def PlayerActions.all (acts : PlayerActions) : List Int :=
  [acts.Jump, acts.StartSprint, acts.StopSprint, acts.StartSneak, acts.StopSneak,
    acts.StartSwimming, acts.StopSwimming, acts.StartGlide, acts.StopGlide]

/-- One iteration of the client-to-server loop of `handleConn`, after `conn.ReadPacket`
returned `pk` without error: the new state and the packets handed to
`serverConn.WritePacket`. -/
def clientToServer (acts : PlayerActions) (info : ConnInfo) (st : ConnState) (pk : Packet) :
    ConnState × List Packet :=
  match pk with
  | .movePlayer p =>
    if !info.oldMovementSystem then (st, [pk])
    else ({ st with pos := p.Position, yaw := p.Yaw, pitch := p.Pitch }, [])
  | .playerAction p =>
    if !info.oldMovementSystem then (st, [pk])
    else if p.ActionType = acts.Jump then ({ st with startedJumping := true }, [])
    else if p.ActionType = acts.StartSprint then ({ st with startedSprinting := true }, [])
    else if p.ActionType = acts.StopSprint then ({ st with stoppedSprinting := true }, [])
    else if p.ActionType = acts.StartSneak then ({ st with startedSneaking := true }, [])
    else if p.ActionType = acts.StopSneak then ({ st with stoppedSneaking := true }, [])
    else if p.ActionType = acts.StartSwimming then ({ st with startedSwimming := true }, [])
    else if p.ActionType = acts.StopSwimming then ({ st with stoppedSwimming := true }, [])
    else if p.ActionType = acts.StartGlide then ({ st with startedGliding := true }, [])
    else if p.ActionType = acts.StopGlide then ({ st with stoppedGliding := true }, [])
    else (st, [pk])
  | _ => (st, [pk])

/-- The client-to-server loop on the packets `reads` that `conn.ReadPacket` returns, in read
order: the final state and all packets handed to `serverConn.WritePacket`, in call order.
(The loop ends on the first failed read or write, so `reads` ends there.) -/
def clientRelay (acts : PlayerActions) (info : ConnInfo) :
    ConnState → List Packet → ConnState × List Packet
  | st, [] => (st, [])
  | st, pk :: rest =>
    let step := clientToServer acts info st pk
    let tail := clientRelay acts info step.1 rest
    (tail.1, step.2 ++ tail.2)

/-- The `float32` operations the ticker performs. -/
structure FloatEnv where
  /-- The `float32` subtraction used by `mgl32.Vec3.Sub`. -/
  sub : Float32 → Float32 → Float32
  /-- Go conversion `int32(x)` of a `float32`. -/
  toInt32 : Float32 → Int

/-- Method `mgl32.Vec3.Sub`: component-wise subtraction. -/
def Vec3.Sub (fe : FloatEnv) (a b : Vec3) : Vec3 :=
  { x := fe.sub a.x b.x, y := fe.sub a.y b.y, z := fe.sub a.z b.z }

/-- The constants `packet.InputFlag...` that the ticker sets: each is a bit index. -/
structure InputFlags where
  StartSneaking : Nat
  StopSneaking : Nat
  StartSprinting : Nat
  StopSprinting : Nat
  StartGliding : Nat
  StopGliding : Nat
  StartSwimming : Nat
  StopSwimming : Nat
  Jumping : Nat
deriving DecidableEq, Repr

/-- The nine input flags, in the order in which the ticker tests the edge flags. -/
def InputFlags.all (fl : InputFlags) : List Nat :=
  [fl.StartSneaking, fl.StopSneaking, fl.StartSprinting, fl.StopSprinting, fl.StartGliding,
    fl.StopGliding, fl.StartSwimming, fl.StopSwimming, fl.Jumping]

/-- A `protocol.Bitset`, kept as the number whose binary digits are its bits. -/
abbrev Bitset := Nat

/-- Call `protocol.NewBitset(size)`: no bit is set. -/
def NewBitset : Bitset := 0

/-- Method `Bitset.Set(i)`. -/
def Bitset.Set (b : Bitset) (i : Nat) : Bitset := b ||| (1 <<< i)

/-- Method `Bitset.Load(i)`. -/
def Bitset.Load (b : Bitset) (i : Nat) : Bool := Nat.testBit b i

/-- The statement `if flag.CompareAndSwap(true, false) { inputs.Set(bit) }` on `inputs`, where
`swapped` is the value the edge flag held (the flag itself is false afterwards). -/
def fire (swapped : Bool) (bit : Nat) (inputs : Bitset) : Bitset :=
  if swapped then inputs.Set bit else inputs

/-- Input modes of package `packet`; the ticker uses `packet.InputModeMouse`. -/
inductive InputMode where
  | mouse
  | touch
  | gamePad
  | motionController
deriving DecidableEq, Repr

/-- Interaction models of package `packet`; the ticker uses
`packet.InteractionModelCrosshair`. -/
inductive InteractionModel where
  | touch
  | crosshair
  | classic
deriving DecidableEq, Repr

/-- Play modes of package `packet` (the first three); the ticker uses
`packet.PlayModeNormal`. -/
inductive PlayMode where
  | normal
  | teaser
  | screen
deriving DecidableEq, Repr

/-- Go `packet.PlayerAuthInput` (the fields the ticker sets; every other field is zero). -/
structure PlayerAuthInput where
  Delta : Vec3
  HeadYaw : Float32
  InputData : Bitset
  InputMode : InputMode
  InteractionModel : InteractionModel
  Pitch : Float32
  PlayMode : PlayMode
  Position : Vec3
  Tick : Nat
  Yaw : Float32
deriving DecidableEq, Repr

/-- Go `packet.NetworkChunkPublisherUpdate` (the fields the ticker sets). -/
structure NetworkChunkPublisherUpdate where
  /-- A `protocol.BlockPos`, a `[3]int32`. -/
  Position : Int × Int × Int
  Radius : Nat
deriving DecidableEq, Repr

/-- What one tick did: the new shared state, the new value of the local counter `tick`, the
packet handed to `serverConn.WritePacket`, the packet handed to `conn.WritePacket` (none when
the upstream write failed), and whether the ticker goes on. -/
structure TickResult where
  st : ConnState
  tick : Nat
  toServer : PlayerAuthInput
  toClient : Option NetworkChunkPublisherUpdate
  running : Bool

/-- One iteration of the ticker loop `for range t.C` of `handleConn`. `writeOk` tells whether
`serverConn.WritePacket` returned without error. -/
def tickStep (fe : FloatEnv) (fl : InputFlags) (info : ConnInfo) (st : ConnState) (tick : Nat)
    (writeOk : Bool) : TickResult :=
  let currentPos := st.pos
  let originalPos := st.lastPos
  let currentYaw := st.yaw
  let currentPitch := st.pitch
  let inputs := NewBitset
  let inputs := fire st.startedSneaking fl.StartSneaking inputs
  let inputs := fire st.stoppedSneaking fl.StopSneaking inputs
  let inputs := fire st.startedSprinting fl.StartSprinting inputs
  let inputs := fire st.stoppedSprinting fl.StopSprinting inputs
  let inputs := fire st.startedGliding fl.StartGliding inputs
  let inputs := fire st.stoppedGliding fl.StopGliding inputs
  let inputs := fire st.startedSwimming fl.StartSwimming inputs
  let inputs := fire st.stoppedSwimming fl.StopSwimming inputs
  let inputs := fire st.startedJumping fl.Jumping inputs
  let st' : ConnState :=
    { st with
      lastPos := currentPos
      startedSneaking := false
      stoppedSneaking := false
      startedSprinting := false
      stoppedSprinting := false
      startedGliding := false
      stoppedGliding := false
      startedSwimming := false
      stoppedSwimming := false
      startedJumping := false }
  let input : PlayerAuthInput :=
    { Delta := Vec3.Sub fe currentPos originalPos
      HeadYaw := currentYaw
      InputData := inputs
      InputMode := .mouse
      InteractionModel := .crosshair
      Pitch := currentPitch
      PlayMode := .normal
      Position := currentPos
      Tick := tick
      Yaw := currentYaw }
  if writeOk then
    { st := st'
      tick := (tick + 1) % 18446744073709551616
      toServer := input
      toClient :=
        some
          { Position := (fe.toInt32 currentPos.x, fe.toInt32 currentPos.y, fe.toInt32 currentPos.z)
            Radius := ((info.data.ChunkRadius % 4294967296).toNat * 16) % 4294967296 }
      running := true }
  else { st := st', tick := tick, toServer := input, toClient := none, running := false }

/-- A step of a legacy-mode session, as seen from the shared movement state: the client relay
handles a packet, or the ticker fires (with the outcome of its upstream write). -/
inductive Event where
  | client (pk : Packet)
  | tick (writeOk : Bool)
deriving DecidableEq, Repr

/-- The shared state together with the ticker's local counter and whether the ticker runs. -/
structure Session where
  st : ConnState
  tick : Nat
  running : Bool

/-- The session when the goroutines of `handleConn` start: the ticker runs in legacy mode only. -/
def Session.new (info : ConnInfo) : Session :=
  { st := ConnState.new info.data, tick := 0, running := info.oldMovementSystem }

/-- What a tick wrote: the upstream packet and the packet for the client, if any. -/
structure TickOutput where
  toServer : PlayerAuthInput
  toClient : Option NetworkChunkPublisherUpdate
deriving DecidableEq, Repr

/-- Runs the steps `evs` in order; returns the final session and what the ticks wrote, in
order. A tick of a ticker that has returned does nothing. -/
def runEvents (fe : FloatEnv) (fl : InputFlags) (acts : PlayerActions) (info : ConnInfo) :
    Session → List Event → Session × List TickOutput
  | s, [] => (s, [])
  | s, .client pk :: rest =>
    runEvents fe fl acts info { s with st := (clientToServer acts info s.st pk).1 } rest
  | s, .tick writeOk :: rest =>
    if s.running then
      let res := tickStep fe fl info s.st s.tick writeOk
      let tail := runEvents fe fl acts info
        { st := res.st, tick := res.tick, running := res.running } rest
      (tail.1, { toServer := res.toServer, toClient := res.toClient } :: tail.2)
    else runEvents fe fl acts info s rest

/-- The nine edge flags of the movement state. -/
inductive EdgeFlag where
  | startedSneaking
  | stoppedSneaking
  | startedSprinting
  | stoppedSprinting
  | startedGliding
  | stoppedGliding
  | startedSwimming
  | stoppedSwimming
  | startedJumping
deriving DecidableEq, Repr

/-- The value of an edge flag in the shared state. -/
def ConnState.flag (st : ConnState) : EdgeFlag → Bool
  | .startedSneaking => st.startedSneaking
  | .stoppedSneaking => st.stoppedSneaking
  | .startedSprinting => st.startedSprinting
  | .stoppedSprinting => st.stoppedSprinting
  | .startedGliding => st.startedGliding
  | .stoppedGliding => st.stoppedGliding
  | .startedSwimming => st.startedSwimming
  | .stoppedSwimming => st.stoppedSwimming
  | .startedJumping => st.startedJumping

/-- The input flag the ticker sets for an edge flag. -/
def InputFlags.bit (fl : InputFlags) : EdgeFlag → Nat
  | .startedSneaking => fl.StartSneaking
  | .stoppedSneaking => fl.StopSneaking
  | .startedSprinting => fl.StartSprinting
  | .stoppedSprinting => fl.StopSprinting
  | .startedGliding => fl.StartGliding
  | .stoppedGliding => fl.StopGliding
  | .startedSwimming => fl.StartSwimming
  | .stoppedSwimming => fl.StopSwimming
  | .startedJumping => fl.Jumping

/-- The action type whose packet makes the client relay set an edge flag. -/
def PlayerActions.action (acts : PlayerActions) : EdgeFlag → Int
  | .startedSneaking => acts.StartSneak
  | .stoppedSneaking => acts.StopSneak
  | .startedSprinting => acts.StartSprint
  | .stoppedSprinting => acts.StopSprint
  | .startedGliding => acts.StartGlide
  | .stoppedGliding => acts.StopGlide
  | .startedSwimming => acts.StartSwimming
  | .stoppedSwimming => acts.StopSwimming
  | .startedJumping => acts.Jump

/-- Whether a step is a set-flag step for the edge flag `f`: the client relay reads a
PlayerAction packet with the action type of `f`. -/
def Event.sets (acts : PlayerActions) (f : EdgeFlag) : Event → Bool
  | .client (.playerAction p) => decide (p.ActionType = acts.action f)
  | _ => false

/-- Whether a step is a tick. -/
def Event.isTick : Event → Bool
  | .tick _ => true
  | _ => false

/-- Whether the client relay keeps a packet for itself (does not hand it to
`serverConn.WritePacket`): in legacy mode, a MovePlayer packet or a PlayerAction packet with one
of the nine action types. -/
def intercepted (acts : PlayerActions) (info : ConnInfo) : Packet → Bool
  | .movePlayer _ => info.oldMovementSystem
  | .playerAction p => info.oldMovementSystem && decide (p.ActionType ∈ acts.all)
  | _ => false

/-- A `float32` bit pattern that is neither an infinity nor a NaN. -/
def IsFinite (x : Float32) : Prop := (x / 8388608) % 256 ≠ 255

/-- Facts of IEEE 754 arithmetic that the statements about the ticker use: `x - 0 = x` and
`x - x = 0` for finite `x`, `int32(0.0) = 0` and `int32(64.0) = 64`
(1115684864 is the bit pattern of 64.0). -/
structure FloatEnv.Sound (fe : FloatEnv) : Prop where
  sub_zero : ∀ x : Float32, IsFinite x → fe.sub x 0 = x
  sub_self : ∀ x : Float32, IsFinite x → fe.sub x x = 0
  toInt32_zero : fe.toInt32 0 = 0
  toInt32_sixty_four : fe.toInt32 1115684864 = 64

/-! ### Both relay loops and the ticker together -/

/-- A step of a session: the client relay handles a packet read from the client, the server
relay handles a packet read from the server, or the ticker fires (with the outcome of its
upstream write). -/
inductive Step where
  | client (pk : Packet)
  | server (pk : Packet)
  | tick (writeOk : Bool)
deriving DecidableEq, Repr

/-- Whether one iteration of the server-to-client loop on `pk` panics: a LevelChunk with a
sentinel count for a tedac client whose offset count is negative or whose RawPayload is
empty. -/
def serverFault (info : ConnInfo) : Packet → Bool
  | .levelChunk p =>
    (decide (p.SubChunkCount = SubChunkRequestModeLimitless) ||
        decide (p.SubChunkCount = SubChunkRequestModeLimited)) &&
      info.tedacProtocol &&
      (decide ((if p.SubChunkCount = SubChunkRequestModeLimited then (p.HighestSubChunk : Int)
          else info.r.Height >>> 4) < 0) ||
        decide (p.RawPayload.length = 0))
  | _ => false

/-- Whether a step panics. -/
def Step.faults (info : ConnInfo) : Step → Bool
  | .server pk => serverFault info pk
  | _ => false

/-- Whether a step is a tick. -/
def Step.isTick : Step → Bool
  | .tick _ => true
  | _ => false

/-- Whether a step records a movement, that is stores `pos`, `yaw` and `pitch`: in legacy
mode, a MovePlayer packet read from the client, or a MovePlayer, MoveActorAbsolute or
MoveActorDelta packet read from the server whose EntityRuntimeID is the player's. -/
def Step.recordsMovement (info : ConnInfo) : Step → Bool
  | .client (.movePlayer _) => info.oldMovementSystem
  | .server (.movePlayer p) => info.oldMovementSystem && decide (p.EntityRuntimeID = info.rid)
  | .server (.moveActorAbsolute p) =>
    info.oldMovementSystem && decide (p.EntityRuntimeID = info.rid)
  | .server (.moveActorDelta p) =>
    info.oldMovementSystem && decide (p.EntityRuntimeID = info.rid)
  | _ => false

/-- Runs the steps `steps` in order on the proxy fields and the session; returns the final
proxy fields and session and what the ticks wrote, in order. `none` is a panic of the server
relay. A tick of a ticker that has returned does nothing. -/
def runSteps {S B : Type} (env : ChunkEnv S B) (fe : FloatEnv) (fl : InputFlags)
    (acts : PlayerActions) (info : ConnInfo) :
    Tedac → Session → List Step → Option (Tedac × Session × List TickOutput)
  | t, s, [] => some (t, s, [])
  | t, s, .client pk :: rest =>
    runSteps env fe fl acts info t { s with st := (clientToServer acts info s.st pk).1 } rest
  | t, s, .server pk :: rest =>
    match serverToClient env info t s.st pk with
    | none => none
    | some res => runSteps env fe fl acts info res.t { s with st := res.st } rest
  | t, s, .tick writeOk :: rest =>
    if s.running then
      match runSteps env fe fl acts info t
          { st := (tickStep fe fl info s.st s.tick writeOk).st
            tick := (tickStep fe fl info s.st s.tick writeOk).tick
            running := (tickStep fe fl info s.st s.tick writeOk).running } rest with
      | none => none
      | some r =>
        some (r.1, r.2.1,
          { toServer := (tickStep fe fl info s.st s.tick writeOk).toServer
            toClient := (tickStep fe fl info s.st s.tick writeOk).toClient } :: r.2.2)
    else runSteps env fe fl acts info t s rest

/-- A step of the client relay or of the ticker, as a step of the whole session. -/
def Event.toStep : Event → Step
  | .client pk => .client pk
  | .tick writeOk => .tick writeOk

/-! ### A small instance of the external decoders, to run the relay on concrete packets -/

/-- Sample sub chunk decoder: one length byte, then that many bytes of blocks. -/
def toyDecodeSubChunk (_r : Range) : Bytes → Option (Bytes × Nat × Bytes)
  | [] => none
  | n :: rest => if n ≤ rest.length then some (rest.take n, 0, rest.drop n) else none

/-- Sample block entity decoder: every byte is one block entity. -/
def toyNbtDecode : Bytes → Option (Nat × Bytes)
  | [] => none
  | b :: rest => some (b, rest)

/-- Sample environment: format version 9, length-prefixed sub chunks, one-byte block
entities. -/
def toyEnv : ChunkEnv Bytes Nat :=
  { SubChunkVersion := 9
    DecodeSubChunk := toyDecodeSubChunk
    EncodeSubChunk := fun sub _ ind => ind :: sub
    nbtDecode := toyNbtDecode
    nbtEncode := fun b => [b]
    nbtDecode_progress := by
      intro buf b rest h
      cases buf with
      | nil => simp [toyNbtDecode] at h
      | cons x xs =>
        simp only [toyNbtDecode, Option.some.injEq, Prod.mk.injEq] at h
        rw [← h.2]
        simp }

/-- Sample game data: runtime id 1, server-authoritative movement. -/
def toyGameData : GameData :=
  { EntityRuntimeID := 1
    MovementType := 1
    PlayerPosition := { x := 0, y := 0, z := 0 }
    Pitch := 0
    Yaw := 0
    ChunkRadius := 8 }

/-- Sample response: an entry without data, an entry whose payload does not decode, an entry
with two blocks and two block entities, and an all-air entry. -/
def toySubChunk : SubChunk :=
  { CacheEnabled := false
    Dimension := 0
    Position := (3, 0, 7)
    SubChunkEntries :=
      [{ Offset := (0, -4, 0), Result := 2, RawPayload := [] },
        { Offset := (0, 1, 0), Result := 1, RawPayload := [] },
        { Offset := (0, 2, 0), Result := 1, RawPayload := [2, 10, 11, 50, 51] },
        { Offset := (0, 3, 0), Result := 6, RawPayload := [1] }] }

/-- Sample terrain packet with the limited sentinel and `HighestSubChunk` 5. -/
def toyLevelChunk : LevelChunk :=
  { Position := (3, 7)
    Dimension := 0
    HighestSubChunk := 5
    SubChunkCount := SubChunkRequestModeLimited
    CacheEnabled := false
    BlobHashes := []
    RawPayload := [1, 2, 3, 0] }

/-- Sample proxy addresses (the defaults written by `main`). -/
def toyTedac : Tedac := { localAddress := "127.0.0.1:19132", remoteAddress := "127.0.0.1:19133" }

/-- Sample action types, pairwise distinct. -/
def toyActions : PlayerActions :=
  { Jump := 8
    StartSprint := 9
    StopSprint := 10
    StartSneak := 11
    StopSneak := 12
    StartSwimming := 21
    StopSwimming := 22
    StartGlide := 15
    StopGlide := 16 }

/-- Sample input flags, pairwise distinct. -/
def toyFlags : InputFlags :=
  { StartSneaking := 27
    StopSneaking := 28
    StartSprinting := 25
    StopSprinting := 26
    StartGliding := 32
    StopGliding := 33
    StartSwimming := 29
    StopSwimming := 30
    Jumping := 6 }

/-- Sample float operations: exact on the values the samples use (`x - 0`, `x - x`, and the
integer parts of 0.0 and 64.0). -/
def toyFloatEnv : FloatEnv :=
  { sub := fun x y => if y = 0 then x else 0
    toInt32 := fun x => if x = 1115684864 then 64 else 0 }

/-- Sample client packet: MovePlayer to (0, 64, 0) with yaw 90 (bit patterns of 64.0 and
90.0). -/
def toyMovePlayer : MovePlayer :=
  { EntityRuntimeID := 1
    Position := { x := 0, y := 1115684864, z := 0 }
    Pitch := 0
    Yaw := 1119092736
    HeadYaw := 1119092736 }

/-- Sample terrain packet with the limitless sentinel. -/
def toyLevelChunkLimitless : LevelChunk :=
  { Position := (3, 7)
    Dimension := 0
    HighestSubChunk := 0
    SubChunkCount := SubChunkRequestModeLimitless
    CacheEnabled := false
    BlobHashes := []
    RawPayload := [1, 2, 3, 0] }

/-- Sample server packet: MovePlayer of another entity (runtime id 2). -/
def toyServerMove : MovePlayer :=
  { EntityRuntimeID := 2
    Position := { x := 5, y := 6, z := 7 }
    Pitch := 8
    Yaw := 9
    HeadYaw := 9 }

end bridge

/-! ## `legacyprotocol/legacypacket` -/

namespace legacypacket

/-- Which implementation of `protocol.IO` a `Marshal` runs against: `*protocol.Writer`
or `*protocol.Reader`. -/
inductive Mode where
  | write
  | read
deriving DecidableEq, Repr

/-- The two directions of one `protocol.IO` method on values of type `α`: what the writer
appends, and what the reader parses from the front of its input (`none`: the reader panics and
decoding fails). -/
structure Prim (α : Type) where
  enc : α → Bytes
  dec : Bytes → Option (α × Bytes)

/-- One call `io.X(&field)`: the writer appends the field to its buffer and leaves the field,
the reader replaces the field by what it parses from the rest of its input. -/
def Prim.run {α : Type} (p : Prim α) (mode : Mode) (x : α) (buf : Bytes) : Option (α × Bytes) :=
  match mode with
  | .write => some (x, buf ++ p.enc x)
  | .read => p.dec buf

/-- Sequencing of the calls of a `Marshal`: the next call runs on the buffer and with the
value the previous one left; a failed read ends the decoding. -/
def andThen {α β : Type} (r : Option (α × Bytes)) (k : α → Bytes → Option (β × Bytes)) :
    Option (β × Bytes) :=
  match r with
  | none => none
  | some (a, buf) => k a buf

/-- The primitive round-trips at `v`: reading what was written for `v` gives `v` back and
consumes exactly the bytes written. -/
def Prim.RoundTripsAt {α : Type} (p : Prim α) (v : α) : Prop :=
  ∀ rest : Bytes, p.dec (p.enc v ++ rest) = some (v, rest)

/-- Go `uuid.UUID`, a `[16]byte`. -/
abbrev UUID := List Nat

/-- The methods of `protocol.IO` and the helpers of `protocol` and `legacyprotocol` that take
the field by pointer. `Attr`, `Meta`, `Link` and `Item` stand for
`legacyprotocol.Attribute`, `map[uint32]any`, `legacyprotocol.EntityLink` and
`legacyprotocol.ItemStack`. -/
structure Codec (Attr Meta Link Item : Type) where
  Varint64 : Prim Int
  Varuint64 : Prim Nat
  Varuint32 : Prim Nat
  Uint32 : Prim Nat
  Uint64 : Prim Nat
  Int64 : Prim Int
  Float32 : Prim Float32
  Vec3 : Prim Vec3
  String : Prim String
  UUID : Prim UUID
  EntityMetadata : Prim Meta
  /-- Call `protocol.Slice(io, &x)` on a `[]legacyprotocol.Attribute`. -/
  SliceAttribute : Prim (List Attr)
  /-- Call `protocol.Slice(io, &x)` on a `[]legacyprotocol.EntityLink`. -/
  SliceEntityLink : Prim (List Link)
  /-- Call `legacyprotocol.Item(io, &x)`. -/
  Item : Prim Item

/-- Go `legacypacket.AddActor`. -/
structure AddActor (Attr Meta Link : Type) where
  EntityUniqueID : Int
  EntityRuntimeID : Nat
  EntityType : String
  Position : Vec3
  Velocity : Vec3
  Pitch : Float32
  Yaw : Float32
  HeadYaw : Float32
  Attributes : List Attr
  EntityMetadata : Meta
  EntityLinks : List Link

/-- Go `(*AddActor).Marshal`. -/
def AddActor.Marshal {Attr Meta Link Item : Type} (io : Codec Attr Meta Link Item)
    (mode : Mode) (pk : AddActor Attr Meta Link) (buf : Bytes) :
    Option (AddActor Attr Meta Link × Bytes) :=
  andThen (io.Varint64.run mode pk.EntityUniqueID buf) fun entityUniqueID buf =>
  andThen (io.Varuint64.run mode pk.EntityRuntimeID buf) fun entityRuntimeID buf =>
  andThen (io.String.run mode pk.EntityType buf) fun entityType buf =>
  andThen (io.Vec3.run mode pk.Position buf) fun position buf =>
  andThen (io.Vec3.run mode pk.Velocity buf) fun velocity buf =>
  andThen (io.Float32.run mode pk.Pitch buf) fun pitch buf =>
  andThen (io.Float32.run mode pk.Yaw buf) fun yaw buf =>
  andThen (io.Float32.run mode pk.HeadYaw buf) fun headYaw buf =>
  andThen (io.SliceAttribute.run mode pk.Attributes buf) fun attributes buf =>
  andThen (io.EntityMetadata.run mode pk.EntityMetadata buf) fun entityMetadata buf =>
  andThen (io.SliceEntityLink.run mode pk.EntityLinks buf) fun entityLinks buf =>
  some
    ({ EntityUniqueID := entityUniqueID,
       EntityRuntimeID := entityRuntimeID,
       EntityType := entityType,
       Position := position,
       Velocity := velocity,
       Pitch := pitch,
       Yaw := yaw,
       HeadYaw := headYaw,
       Attributes := attributes,
       EntityMetadata := entityMetadata,
       EntityLinks := entityLinks },
      buf)

/-- Go `legacypacket.AddPlayer`. -/
structure AddPlayer (Meta Link Item : Type) where
  UUID : UUID
  Username : String
  EntityUniqueID : Int
  EntityRuntimeID : Nat
  PlatformChatID : String
  Position : Vec3
  Velocity : Vec3
  Pitch : Float32
  Yaw : Float32
  HeadYaw : Float32
  HeldItem : Item
  EntityMetadata : Meta
  Flags : Nat
  CommandPermissionLevel : Nat
  ActionPermissions : Nat
  PermissionLevel : Nat
  CustomStoredPermissions : Nat
  PlayerUniqueID : Int
  EntityLinks : List Link
  DeviceID : String

/-- Go `(*AddPlayer).Marshal`. -/
def AddPlayer.Marshal {Attr Meta Link Item : Type} (io : Codec Attr Meta Link Item)
    (mode : Mode) (pk : AddPlayer Meta Link Item) (buf : Bytes) :
    Option (AddPlayer Meta Link Item × Bytes) :=
  andThen (io.UUID.run mode pk.UUID buf) fun uuid buf =>
  andThen (io.String.run mode pk.Username buf) fun username buf =>
  andThen (io.Varint64.run mode pk.EntityUniqueID buf) fun entityUniqueID buf =>
  andThen (io.Varuint64.run mode pk.EntityRuntimeID buf) fun entityRuntimeID buf =>
  andThen (io.String.run mode pk.PlatformChatID buf) fun platformChatID buf =>
  andThen (io.Vec3.run mode pk.Position buf) fun position buf =>
  andThen (io.Vec3.run mode pk.Velocity buf) fun velocity buf =>
  andThen (io.Float32.run mode pk.Pitch buf) fun pitch buf =>
  andThen (io.Float32.run mode pk.Yaw buf) fun yaw buf =>
  andThen (io.Float32.run mode pk.HeadYaw buf) fun headYaw buf =>
  andThen (io.Item.run mode pk.HeldItem buf) fun heldItem buf =>
  andThen (io.EntityMetadata.run mode pk.EntityMetadata buf) fun entityMetadata buf =>
  andThen (io.Varuint32.run mode pk.Flags buf) fun flags buf =>
  andThen (io.Varuint32.run mode pk.CommandPermissionLevel buf) fun commandPermissionLevel buf =>
  andThen (io.Varuint32.run mode pk.ActionPermissions buf) fun actionPermissions buf =>
  andThen (io.Varuint32.run mode pk.PermissionLevel buf) fun permissionLevel buf =>
  andThen (io.Varuint32.run mode pk.CustomStoredPermissions buf) fun customStoredPermissions buf =>
  andThen (io.Int64.run mode pk.PlayerUniqueID buf) fun playerUniqueID buf =>
  andThen (io.SliceEntityLink.run mode pk.EntityLinks buf) fun entityLinks buf =>
  andThen (io.String.run mode pk.DeviceID buf) fun deviceID buf =>
  some
    ({ UUID := uuid,
       Username := username,
       EntityUniqueID := entityUniqueID,
       EntityRuntimeID := entityRuntimeID,
       PlatformChatID := platformChatID,
       Position := position,
       Velocity := velocity,
       Pitch := pitch,
       Yaw := yaw,
       HeadYaw := headYaw,
       HeldItem := heldItem,
       EntityMetadata := entityMetadata,
       Flags := flags,
       CommandPermissionLevel := commandPermissionLevel,
       ActionPermissions := actionPermissions,
       PermissionLevel := permissionLevel,
       CustomStoredPermissions := customStoredPermissions,
       PlayerUniqueID := playerUniqueID,
       EntityLinks := entityLinks,
       DeviceID := deviceID },
      buf)

/-- Go `legacypacket.InventorySlot`. -/
structure InventorySlot (Item : Type) where
  WindowID : Nat
  Slot : Nat
  NewItem : Item

/-- Go `(*InventorySlot).Marshal`. -/
def InventorySlot.Marshal {Attr Meta Link Item : Type} (io : Codec Attr Meta Link Item)
    (mode : Mode) (pk : InventorySlot Item) (buf : Bytes) :
    Option (InventorySlot Item × Bytes) :=
  andThen (io.Varuint32.run mode pk.WindowID buf) fun windowID buf =>
  andThen (io.Varuint32.run mode pk.Slot buf) fun slot buf =>
  andThen (io.Item.run mode pk.NewItem buf) fun newItem buf =>
  some
    ({ WindowID := windowID,
       Slot := slot,
       NewItem := newItem },
      buf)

/-- Go `legacypacket.MobArmourEquipment`. -/
structure MobArmourEquipment (Item : Type) where
  EntityRuntimeID : Nat
  Helmet : Item
  Chestplate : Item
  Leggings : Item
  Boots : Item

/-- Go `(*MobArmourEquipment).Marshal`. -/
def MobArmourEquipment.Marshal {Attr Meta Link Item : Type} (io : Codec Attr Meta Link Item)
    (mode : Mode) (pk : MobArmourEquipment Item) (buf : Bytes) :
    Option (MobArmourEquipment Item × Bytes) :=
  andThen (io.Varuint64.run mode pk.EntityRuntimeID buf) fun entityRuntimeID buf =>
  andThen (io.Item.run mode pk.Helmet buf) fun helmet buf =>
  andThen (io.Item.run mode pk.Chestplate buf) fun chestplate buf =>
  andThen (io.Item.run mode pk.Leggings buf) fun leggings buf =>
  andThen (io.Item.run mode pk.Boots buf) fun boots buf =>
  some
    ({ EntityRuntimeID := entityRuntimeID,
       Helmet := helmet,
       Chestplate := chestplate,
       Leggings := leggings,
       Boots := boots },
      buf)

/-- Go `legacypacket.ResourcePackChunkData`. -/
structure ResourcePackChunkData where
  UUID : String
  ChunkIndex : Nat
  DataOffset : Nat
  Data : Bytes
deriving DecidableEq, Repr

/-- A helper `legacyprotocol.ByteSlice(io, x)` that receives the slice `x` by value: it may use
the stream and overwrite elements of `x`, but the caller's slice keeps its length. The result
is the content of the caller's slice after the call. -/
abbrev ByteSliceFn :=
  Mode → (x : Bytes) → Bytes → Option ({ y : Bytes // y.length = x.length } × Bytes)

/-- Go `(*ResourcePackChunkData).Marshal`; the last call is
`legacyprotocol.ByteSlice(io, pk.Data)`. -/
def ResourcePackChunkData.Marshal {Attr Meta Link Item : Type} (io : Codec Attr Meta Link Item)
    (ByteSlice : ByteSliceFn) (mode : Mode) (pk : ResourcePackChunkData) (buf : Bytes) :
    Option (ResourcePackChunkData × Bytes) :=
  andThen (io.String.run mode pk.UUID buf) fun uuid buf =>
  andThen (io.Uint32.run mode pk.ChunkIndex buf) fun chunkIndex buf =>
  andThen (io.Uint64.run mode pk.DataOffset buf) fun dataOffset buf =>
  andThen (ByteSlice mode pk.Data buf) fun data buf =>
  some
    ({ UUID := uuid,
       ChunkIndex := chunkIndex,
       DataOffset := dataOffset,
       Data := data.val },
      buf)

/-- The zero value of `ResourcePackChunkData`, into which a packet is decoded. -/
def ResourcePackChunkData.zero : ResourcePackChunkData :=
  { UUID := "", ChunkIndex := 0, DataOffset := 0, Data := [] }

/-- Every primitive used by `AddActor.Marshal` round-trips at the field it is applied to. -/
def AddActor.FieldsRoundTrip {Attr Meta Link Item : Type} (io : Codec Attr Meta Link Item)
    (pk : AddActor Attr Meta Link) : Prop :=
  io.Varint64.RoundTripsAt pk.EntityUniqueID ∧
  io.Varuint64.RoundTripsAt pk.EntityRuntimeID ∧
  io.String.RoundTripsAt pk.EntityType ∧
  io.Vec3.RoundTripsAt pk.Position ∧
  io.Vec3.RoundTripsAt pk.Velocity ∧
  io.Float32.RoundTripsAt pk.Pitch ∧
  io.Float32.RoundTripsAt pk.Yaw ∧
  io.Float32.RoundTripsAt pk.HeadYaw ∧
  io.SliceAttribute.RoundTripsAt pk.Attributes ∧
  io.EntityMetadata.RoundTripsAt pk.EntityMetadata ∧
  io.SliceEntityLink.RoundTripsAt pk.EntityLinks

/-- The encodings of the fields of `AddActor`, concatenated in the order in which `Marshal`
visits them. -/
def AddActor.encoding {Attr Meta Link Item : Type} (io : Codec Attr Meta Link Item)
    (pk : AddActor Attr Meta Link) : Bytes :=
  io.Varint64.enc pk.EntityUniqueID ++
  io.Varuint64.enc pk.EntityRuntimeID ++
  io.String.enc pk.EntityType ++
  io.Vec3.enc pk.Position ++
  io.Vec3.enc pk.Velocity ++
  io.Float32.enc pk.Pitch ++
  io.Float32.enc pk.Yaw ++
  io.Float32.enc pk.HeadYaw ++
  io.SliceAttribute.enc pk.Attributes ++
  io.EntityMetadata.enc pk.EntityMetadata ++
  io.SliceEntityLink.enc pk.EntityLinks

/-- Every primitive used by `AddPlayer.Marshal` round-trips at the field it is applied to. -/
def AddPlayer.FieldsRoundTrip {Attr Meta Link Item : Type} (io : Codec Attr Meta Link Item)
    (pk : AddPlayer Meta Link Item) : Prop :=
  io.UUID.RoundTripsAt pk.UUID ∧
  io.String.RoundTripsAt pk.Username ∧
  io.Varint64.RoundTripsAt pk.EntityUniqueID ∧
  io.Varuint64.RoundTripsAt pk.EntityRuntimeID ∧
  io.String.RoundTripsAt pk.PlatformChatID ∧
  io.Vec3.RoundTripsAt pk.Position ∧
  io.Vec3.RoundTripsAt pk.Velocity ∧
  io.Float32.RoundTripsAt pk.Pitch ∧
  io.Float32.RoundTripsAt pk.Yaw ∧
  io.Float32.RoundTripsAt pk.HeadYaw ∧
  io.Item.RoundTripsAt pk.HeldItem ∧
  io.EntityMetadata.RoundTripsAt pk.EntityMetadata ∧
  io.Varuint32.RoundTripsAt pk.Flags ∧
  io.Varuint32.RoundTripsAt pk.CommandPermissionLevel ∧
  io.Varuint32.RoundTripsAt pk.ActionPermissions ∧
  io.Varuint32.RoundTripsAt pk.PermissionLevel ∧
  io.Varuint32.RoundTripsAt pk.CustomStoredPermissions ∧
  io.Int64.RoundTripsAt pk.PlayerUniqueID ∧
  io.SliceEntityLink.RoundTripsAt pk.EntityLinks ∧
  io.String.RoundTripsAt pk.DeviceID

/-- The encodings of the fields of `AddPlayer`, concatenated in the order in which `Marshal`
visits them. -/
def AddPlayer.encoding {Attr Meta Link Item : Type} (io : Codec Attr Meta Link Item)
    (pk : AddPlayer Meta Link Item) : Bytes :=
  io.UUID.enc pk.UUID ++
  io.String.enc pk.Username ++
  io.Varint64.enc pk.EntityUniqueID ++
  io.Varuint64.enc pk.EntityRuntimeID ++
  io.String.enc pk.PlatformChatID ++
  io.Vec3.enc pk.Position ++
  io.Vec3.enc pk.Velocity ++
  io.Float32.enc pk.Pitch ++
  io.Float32.enc pk.Yaw ++
  io.Float32.enc pk.HeadYaw ++
  io.Item.enc pk.HeldItem ++
  io.EntityMetadata.enc pk.EntityMetadata ++
  io.Varuint32.enc pk.Flags ++
  io.Varuint32.enc pk.CommandPermissionLevel ++
  io.Varuint32.enc pk.ActionPermissions ++
  io.Varuint32.enc pk.PermissionLevel ++
  io.Varuint32.enc pk.CustomStoredPermissions ++
  io.Int64.enc pk.PlayerUniqueID ++
  io.SliceEntityLink.enc pk.EntityLinks ++
  io.String.enc pk.DeviceID

/-- Every primitive used by `InventorySlot.Marshal` round-trips at the field it is applied to. -/
def InventorySlot.FieldsRoundTrip {Attr Meta Link Item : Type} (io : Codec Attr Meta Link Item)
    (pk : InventorySlot Item) : Prop :=
  io.Varuint32.RoundTripsAt pk.WindowID ∧
  io.Varuint32.RoundTripsAt pk.Slot ∧
  io.Item.RoundTripsAt pk.NewItem

/-- The encodings of the fields of `InventorySlot`, concatenated in the order in which `Marshal`
visits them. -/
def InventorySlot.encoding {Attr Meta Link Item : Type} (io : Codec Attr Meta Link Item)
    (pk : InventorySlot Item) : Bytes :=
  io.Varuint32.enc pk.WindowID ++
  io.Varuint32.enc pk.Slot ++
  io.Item.enc pk.NewItem

/-- Every primitive used by `MobArmourEquipment.Marshal` round-trips at the field it is applied to. -/
def MobArmourEquipment.FieldsRoundTrip {Attr Meta Link Item : Type} (io : Codec Attr Meta Link Item)
    (pk : MobArmourEquipment Item) : Prop :=
  io.Varuint64.RoundTripsAt pk.EntityRuntimeID ∧
  io.Item.RoundTripsAt pk.Helmet ∧
  io.Item.RoundTripsAt pk.Chestplate ∧
  io.Item.RoundTripsAt pk.Leggings ∧
  io.Item.RoundTripsAt pk.Boots

/-- The encodings of the fields of `MobArmourEquipment`, concatenated in the order in which `Marshal`
visits them. -/
def MobArmourEquipment.encoding {Attr Meta Link Item : Type} (io : Codec Attr Meta Link Item)
    (pk : MobArmourEquipment Item) : Bytes :=
  io.Varuint64.enc pk.EntityRuntimeID ++
  io.Item.enc pk.Helmet ++
  io.Item.enc pk.Chestplate ++
  io.Item.enc pk.Leggings ++
  io.Item.enc pk.Boots

/-! ### A small instance of the primitives, to run the codecs on concrete packets -/

/-- Sample primitive for unsigned integers: one byte. -/
def toyNat : Prim Nat :=
  { enc := fun n => [n % 256]
    dec := fun buf =>
      match buf with
      | [] => none
      | b :: rest => some (b, rest) }

/-- Sample primitive for signed integers: one byte, two's complement. -/
def toyInt : Prim Int :=
  { enc := fun i => [toUint8 i]
    dec := fun buf =>
      match buf with
      | [] => none
      | b :: rest => some (toInt8 b, rest) }

/-- Sample primitive for vectors: one byte per component. -/
def toyVec3 : Prim Vec3 :=
  { enc := fun v => [v.x % 256, v.y % 256, v.z % 256]
    dec := fun buf =>
      match buf with
      | x :: y :: z :: rest => some ({ x := x, y := y, z := z }, rest)
      | _ => none }

/-- Sample primitive for byte lists: one length byte, then the elements. -/
def toyList : Prim (List Nat) :=
  { enc := fun l => (l.length % 256) :: l.map (· % 256)
    dec := fun buf =>
      match buf with
      | [] => none
      | n :: rest => if n ≤ rest.length then some (rest.take n, rest.drop n) else none }

/-- Sample primitive for strings: one length byte, then one byte per character. -/
def toyString : Prim String :=
  { enc := fun str => (str.length % 256) :: str.toList.map (fun c => c.toNat % 256)
    dec := fun buf =>
      match buf with
      | [] => none
      | n :: rest =>
        if n ≤ rest.length then some (String.mk ((rest.take n).map Char.ofNat), rest.drop n)
        else none }

/-- Sample codec: attributes, metadata, links and items are natural numbers below 256. -/
def toyCodec : Codec Nat Nat Nat Nat :=
  { Varint64 := toyInt
    Varuint64 := toyNat
    Varuint32 := toyNat
    Uint32 := toyNat
    Uint64 := toyNat
    Int64 := toyInt
    Float32 := toyNat
    Vec3 := toyVec3
    String := toyString
    UUID := toyList
    EntityMetadata := toyNat
    SliceAttribute := toyList
    SliceEntityLink := toyList
    Item := toyNat }

/-- Sample `ByteSlice`: the writer appends a length byte and the elements; the reader consumes
them into its own copy of the slice header, which the caller never sees. -/
def toyByteSlice : ByteSliceFn := fun mode x buf =>
  match mode with
  | .write => some (⟨x, rfl⟩, buf ++ (x.length % 256) :: x)
  | .read =>
    match buf with
    | [] => none
    | n :: rest => if n ≤ rest.length then some (⟨x, rfl⟩, rest.drop n) else none

/-- Sample `AddActor`. -/
def toyAddActor : AddActor Nat Nat Nat :=
  { EntityUniqueID := -3
    EntityRuntimeID := 7
    EntityType := "pig"
    Position := { x := 1, y := 2, z := 3 }
    Velocity := { x := 0, y := 0, z := 0 }
    Pitch := 10
    Yaw := 20
    HeadYaw := 30
    Attributes := [4, 5]
    EntityMetadata := 6
    EntityLinks := [] }

/-- Sample `AddPlayer`. -/
def toyAddPlayer : AddPlayer Nat Nat Nat :=
  { UUID := [1, 2]
    Username := "bob"
    EntityUniqueID := -3
    EntityRuntimeID := 7
    PlatformChatID := ""
    Position := { x := 1, y := 2, z := 3 }
    Velocity := { x := 0, y := 0, z := 0 }
    Pitch := 10
    Yaw := 20
    HeadYaw := 30
    HeldItem := 9
    EntityMetadata := 6
    Flags := 1
    CommandPermissionLevel := 2
    ActionPermissions := 3
    PermissionLevel := 4
    CustomStoredPermissions := 5
    PlayerUniqueID := 12
    EntityLinks := [8]
    DeviceID := "d" }

/-- Sample `InventorySlot`. -/
def toyInventorySlot : InventorySlot Nat := { WindowID := 1, Slot := 2, NewItem := 3 }

/-- Sample `MobArmourEquipment`. -/
def toyMobArmourEquipment : MobArmourEquipment Nat :=
  { EntityRuntimeID := 7, Helmet := 1, Chestplate := 2, Leggings := 3, Boots := 4 }

/-- Sample `ResourcePackChunkData` with two bytes of data. -/
def toyResourcePackChunkData : ResourcePackChunkData :=
  { UUID := "ab", ChunkIndex := 1, DataOffset := 2, Data := [7, 8] }

end legacypacket

end Tedac

/-! # Theorems -/

namespace Tedac

namespace latestmappings

theorem GoMap.get_set_self (m : GoMap) (k v : String) : (m.set k v).get k = some v := by
  induction m with
  | nil => simp [GoMap.set, GoMap.get]
  | cons e m ih =>
    obtain ⟨k0, v0⟩ := e
    by_cases h : k0 = k
    · simp [GoMap.set, GoMap.get, h]
    · simp [GoMap.set, GoMap.get, h, ih]

theorem GoMap.get_set_ne (m : GoMap) (k v k' : String) (hne : k' ≠ k) :
    (m.set k v).get k' = m.get k' := by
  induction m with
  | nil => simp [GoMap.set, GoMap.get, Ne.symm hne]
  | cons e m ih =>
    obtain ⟨k0, v0⟩ := e
    by_cases h : k0 = k
    · subst h
      simp [GoMap.set, GoMap.get, Ne.symm hne]
    · by_cases h' : k0 = k'
      · subst h'
        simp [GoMap.set, GoMap.get, h]
      · simp [GoMap.set, GoMap.get, h, h', ih]

theorem GoMap.keys_set (m : GoMap) (k v : String) :
    (m.set k v).keys = if k ∈ m.keys then m.keys else m.keys ++ [k] := by
  induction m with
  | nil => simp [GoMap.set, GoMap.keys]
  | cons e m ih =>
    obtain ⟨k0, v0⟩ := e
    by_cases h : k0 = k
    · subst h
      simp [GoMap.set, GoMap.keys]
    · have h2 : ¬ k = k0 := fun hh => h hh.symm
      simp only [GoMap.keys] at ih
      by_cases hm : k ∈ List.map Prod.fst m
      · simp [GoMap.set, GoMap.keys, h, h2, ih, hm]
      · simp [GoMap.set, GoMap.keys, h, h2, ih, hm]

theorem GoMap.nodup_keys_set (m : GoMap) (k v : String) (hm : m.keys.Nodup) :
    (m.set k v).keys.Nodup := by
  rw [GoMap.keys_set]
  by_cases h : k ∈ m.keys
  · simpa [h] using hm
  · simp only [h, if_false]
    exact List.Nodup.append hm (List.nodup_singleton k) (by simpa using h)

theorem GoMap.mem_of_get (m : GoMap) (k v : String) (h : m.get k = some v) : (k, v) ∈ m := by
  induction m with
  | nil => simp [GoMap.get] at h
  | cons e m ih =>
    obtain ⟨k0, v0⟩ := e
    by_cases hk : k0 = k
    · simp [GoMap.get, hk] at h
      simp [hk, h]
    · simp [GoMap.get, hk] at h
      exact List.mem_cons_of_mem _ (ih h)

theorem GoMap.get_of_mem (m : GoMap) (k v : String) (hm : m.keys.Nodup) (h : (k, v) ∈ m) :
    m.get k = some v := by
  induction m with
  | nil => simp at h
  | cons e m ih =>
    obtain ⟨k0, v0⟩ := e
    simp only [GoMap.keys, List.map_cons, List.nodup_cons] at hm
    rcases List.mem_cons.mp h with heq | hmem
    · cases heq
      simp [GoMap.get]
    · have hk : k0 ≠ k := by
        intro hh
        subst hh
        exact hm.1 (List.mem_map_of_mem Prod.fst hmem)
      simp only [GoMap.get, hk, if_false]
      exact ih hm.2 hmem

theorem GoMap.get_isSome_iff_mem_keys (m : GoMap) (k : String) :
    (m.get k).isSome ↔ k ∈ m.keys := by
  induction m with
  | nil => simp [GoMap.get, GoMap.keys]
  | cons e m ih =>
    obtain ⟨k0, v0⟩ := e
    by_cases hk : k0 = k
    · simp [GoMap.get, GoMap.keys, hk]
    · have hk2 : ¬ k = k0 := fun hh => hk hh.symm
      simp only [GoMap.keys] at ih
      simp [GoMap.get, GoMap.keys, hk, hk2, ih]

theorem unmarshalInto_nodup (decoded : List (String × String)) (m : GoMap)
    (hm : m.keys.Nodup) : (unmarshalInto decoded m).keys.Nodup := by
  induction decoded generalizing m with
  | nil => simpa [unmarshalInto] using hm
  | cons e es ih =>
    simp only [unmarshalInto, List.foldl_cons]
    exact ih _ (GoMap.nodup_keys_set m e.1 e.2 hm)

theorem prefixLoop_nodup (visit : List (String × String)) (m : GoMap)
    (hm : m.keys.Nodup) : (prefixLoop visit m).keys.Nodup := by
  induction visit generalizing m with
  | nil => simpa [prefixLoop] using hm
  | cons e es ih =>
    simp only [prefixLoop, List.foldl_cons]
    cases hget : GoMap.get m e.1 with
    | none => exact ih _ hm
    | some al => exact ih _ (GoMap.nodup_keys_set m _ _ hm)

/-- Every entry the second loop visits leaves its updated name as a key of the reverse map. -/
theorem reverseLoop_key_of_mem (visit : List (String × String)) (rev : GoMap) (a n : String)
    (h : (a, n) ∈ visit ∨ (rev.get n).isSome) : ((reverseLoop visit rev).get n).isSome := by
  induction visit generalizing rev with
  | nil => simpa [reverseLoop] using h
  | cons e es ih =>
    simp only [reverseLoop, List.foldl_cons]
    apply ih
    rcases h with h | h
    · rcases List.mem_cons.mp h with heq | hmem
      · right
        rw [← heq]
        simp [GoMap.get_set_self]
      · exact Or.inl hmem
    · right
      by_cases hk : n = e.2
      · rw [hk]; simp [GoMap.get_set_self]
      · rw [GoMap.get_set_ne _ _ _ _ hk]; exact h

/-- Every entry of the reverse map is the inversion of a visited entry (or was there before). -/
theorem reverseLoop_get (visit : List (String × String)) (rev : GoMap) (a n : String)
    (h : (reverseLoop visit rev).get n = some a) : (a, n) ∈ visit ∨ rev.get n = some a := by
  induction visit generalizing rev with
  | nil => exact Or.inr (by simpa [reverseLoop] using h)
  | cons e es ih =>
    simp only [reverseLoop, List.foldl_cons] at h
    rcases ih _ h with h1 | h1
    · exact Or.inl (List.mem_cons_of_mem _ h1)
    · by_cases hk : n = e.2
      · rw [hk, GoMap.get_set_self] at h1
        left
        have : e = (a, n) := by
          rw [hk]
          cases e
          simp at h1 ⊢
          exact h1
        rw [this]
        exact List.mem_cons_self _ _
      · rw [GoMap.get_set_ne _ _ _ _ hk] at h1
        exact Or.inr h1

/-- The forward table built by `init` has unique keys, and the reverse table is built from the
entries of the forward table that the second loop visits. -/
theorem init_spec (first second : Schedule)
    (unmarshal : Bytes → Option (List (String × String)))
    (data : Bytes) (st : Tables) (h : init first second unmarshal data = some st) :
    st.itemAliasMappings.keys.Nodup ∧
      st.reverseItemAliasMappings = reverseLoop (second st.itemAliasMappings) [] := by
  unfold init at h
  cases hu : unmarshal data with
  | none => simp [hu] at h
  | some decoded =>
    simp only [hu, Option.some.injEq] at h
    subst h
    refine ⟨?_, rfl⟩
    exact prefixLoop_nodup _ _ (unmarshalInto_nodup _ _ (by simp [GoMap.keys]))

/-- The first loop of `init` leaves every key that does not start with "minecraft:" as it
was, whatever entries it visits. -/
theorem prefixLoop_get_of_not_prefixed (visit : List (String × String)) (m : GoMap) (k : String)
    (hk : ∀ s : String, k ≠ "minecraft:" ++ s) : (prefixLoop visit m).get k = m.get k := by
  induction visit generalizing m with
  | nil => simp [prefixLoop]
  | cons e es ih =>
    simp only [prefixLoop, List.foldl_cons]
    cases hget : GoMap.get m e.1 with
    | none => exact ih m
    | some al =>
      have := ih (m.set ("minecraft:" ++ e.1) ("minecraft:" ++ al))
      simp only [prefixLoop] at this
      rw [this, GoMap.get_set_ne _ _ _ _ (hk e.1)]

theorem short_ne_prefixed (k : String) (hlen : k.length < 10) (s : String) :
    k ≠ "minecraft:" ++ s := by
  intro h
  have h2 := congrArg String.length h
  rw [String.length_append] at h2
  have h3 : "minecraft:".length = 10 := by decide
  omega

/-- C1, as stated, fails: on the embedded table {a ↦ x, b ↦ x} no iteration order of the two
loops of `init` makes the round trip return every alias, because the reverse table holds one
alias for `x`. -/
theorem alias_round_trip_fails :
    ¬ ∃ first second : Schedule, ∀ st : Tables,
        init first second (fun _ => some [("a", "x"), ("b", "x")]) [] = some st →
        ∀ al ∈ st.itemAliasMappings.keys,
          (AliasFromUpdatedItemName (UpdatedItemNameFromAlias st al).2
            (UpdatedItemNameFromAlias st al).1.1).1 = (al, true) := by
  rintro ⟨first, second, h⟩
  have hm0 : unmarshalInto [("a", "x"), ("b", "x")] [] = [("a", "x"), ("b", "x")] := by decide
  obtain ⟨st, hst⟩ :
      ∃ st, init first second (fun _ => some [("a", "x"), ("b", "x")]) [] = some st :=
    ⟨_, rfl⟩
  have hfwd : st.itemAliasMappings
      = prefixLoop (first [("a", "x"), ("b", "x")]) [("a", "x"), ("b", "x")] := by
    simp only [init, hm0, Option.some.injEq] at hst
    rw [← hst]
  have ha : st.itemAliasMappings.get "a" = some "x" := by
    rw [hfwd, prefixLoop_get_of_not_prefixed _ _ _ (short_ne_prefixed "a" (by decide))]
    decide
  have hb : st.itemAliasMappings.get "b" = some "x" := by
    rw [hfwd, prefixLoop_get_of_not_prefixed _ _ _ (short_ne_prefixed "b" (by decide))]
    decide
  have hka : "a" ∈ st.itemAliasMappings.keys :=
    (GoMap.get_isSome_iff_mem_keys _ _).mp (by rw [ha]; rfl)
  have hkb : "b" ∈ st.itemAliasMappings.keys :=
    (GoMap.get_isSome_iff_mem_keys _ _).mp (by rw [hb]; rfl)
  have h1 := h st hst "a" hka
  have h2 := h st hst "b" hkb
  simp only [UpdatedItemNameFromAlias, ha, hb] at h1 h2
  rw [h1] at h2
  exact absurd h2 (by decide)

/-- C1 (amended): for every alias `al` that is a key of the forward table built by `init`
(any embedded table, any iteration order of the first loop, any fair iteration order of the
second), the updated name `n` of `al` is found, and
looking `n` up with `AliasFromUpdatedItemName` returns `(a, true)` for an alias `a` of the
forward table whose updated name is also `n`; `a` is `al` itself whenever no other alias
shares that updated name. -/
theorem alias_round_trip_up_to_shared_name (first second : Schedule) (hfair : second.Fair)
    (unmarshal : Bytes → Option (List (String × String))) (data : Bytes) (st : Tables)
    (al : String) (hinit : init first second unmarshal data = some st)
    (hkey : al ∈ st.itemAliasMappings.keys) :
    ∃ n a : String,
      UpdatedItemNameFromAlias st al = ((n, true), st) ∧
      (AliasFromUpdatedItemName (UpdatedItemNameFromAlias st al).2
        (UpdatedItemNameFromAlias st al).1.1).1 = (a, true) ∧
      st.itemAliasMappings.get a = some n ∧
      ((∀ b : String, st.itemAliasMappings.get b = some n → b = al) → a = al) := by
  obtain ⟨hnodup, hrev⟩ := init_spec first second unmarshal data st hinit
  have hsome := (GoMap.get_isSome_iff_mem_keys _ _).mpr hkey
  obtain ⟨n, hn⟩ := Option.isSome_iff_exists.mp hsome
  have hmem : (al, n) ∈ second st.itemAliasMappings :=
    (hfair st.itemAliasMappings).mem_iff.mpr (GoMap.mem_of_get _ _ _ hn)
  have hrsome : (st.reverseItemAliasMappings.get n).isSome := by
    rw [hrev]
    exact reverseLoop_key_of_mem _ _ al n (Or.inl hmem)
  obtain ⟨a, ha⟩ := Option.isSome_iff_exists.mp hrsome
  have hback : st.itemAliasMappings.get a = some n := by
    have := ha
    rw [hrev] at this
    rcases reverseLoop_get _ _ _ _ this with h1 | h1
    · exact GoMap.get_of_mem _ _ _ hnodup ((hfair st.itemAliasMappings).mem_iff.mp h1)
    · simp [GoMap.get] at h1
  refine ⟨n, a, ?_, ?_, hback, fun huniq => huniq a hback⟩
  · simp [UpdatedItemNameFromAlias, hn]
  · simp [UpdatedItemNameFromAlias, AliasFromUpdatedItemName, hn, ha]

/-- Witness of `alias_round_trip_up_to_shared_name`: the table {a ↦ x, b ↦ x}, iterated in
list order, at the alias `a`. -/
theorem alias_round_trip_up_to_shared_name_witness :
    ∃ n a : String,
      UpdatedItemNameFromAlias
          { itemAliasMappings :=
              [("a", "x"), ("b", "x"), ("minecraft:a", "minecraft:x"),
                ("minecraft:b", "minecraft:x")]
            reverseItemAliasMappings := [("x", "b"), ("minecraft:x", "minecraft:b")] } "a"
        = ((n, true),
          { itemAliasMappings :=
              [("a", "x"), ("b", "x"), ("minecraft:a", "minecraft:x"),
                ("minecraft:b", "minecraft:x")]
            reverseItemAliasMappings := [("x", "b"), ("minecraft:x", "minecraft:b")] }) ∧
      (AliasFromUpdatedItemName
          (UpdatedItemNameFromAlias
            { itemAliasMappings :=
                [("a", "x"), ("b", "x"), ("minecraft:a", "minecraft:x"),
                  ("minecraft:b", "minecraft:x")]
              reverseItemAliasMappings := [("x", "b"), ("minecraft:x", "minecraft:b")] } "a").2
          (UpdatedItemNameFromAlias
            { itemAliasMappings :=
                [("a", "x"), ("b", "x"), ("minecraft:a", "minecraft:x"),
                  ("minecraft:b", "minecraft:x")]
              reverseItemAliasMappings := [("x", "b"), ("minecraft:x", "minecraft:b")] } "a").1.1).1
        = (a, true) ∧
      GoMap.get
          [("a", "x"), ("b", "x"), ("minecraft:a", "minecraft:x"), ("minecraft:b", "minecraft:x")]
          a = some n ∧
      ((∀ b : String,
          GoMap.get
            [("a", "x"), ("b", "x"), ("minecraft:a", "minecraft:x"),
              ("minecraft:b", "minecraft:x")] b = some n → b = "a") → a = "a") :=
  alias_round_trip_up_to_shared_name id id (fun m => List.Perm.refl m)
    (fun _ => some [("a", "x"), ("b", "x")]) []
    { itemAliasMappings :=
        [("a", "x"), ("b", "x"), ("minecraft:a", "minecraft:x"), ("minecraft:b", "minecraft:x")]
      reverseItemAliasMappings := [("x", "b"), ("minecraft:x", "minecraft:b")] }
    "a" (by decide) (by decide)

/-- C2: `UpdatedItemNameFromAlias s` returns `(forward[s], true)` when `s` is a key of the
forward table and `(s, false)` otherwise, `AliasFromUpdatedItemName s` does the same on the
reverse table, and both return (are total) with both tables unchanged. -/
theorem lookups_spec (st : Tables) (s : String) :
    ((∃ v : String, s ∈ st.itemAliasMappings.keys ∧ (s, v) ∈ st.itemAliasMappings ∧
          st.itemAliasMappings.get s = some v ∧
          UpdatedItemNameFromAlias st s = ((v, true), st)) ∨
      (s ∉ st.itemAliasMappings.keys ∧ UpdatedItemNameFromAlias st s = ((s, false), st))) ∧
    ((∃ v : String, s ∈ st.reverseItemAliasMappings.keys ∧
          (s, v) ∈ st.reverseItemAliasMappings ∧
          st.reverseItemAliasMappings.get s = some v ∧
          AliasFromUpdatedItemName st s = ((v, true), st)) ∨
      (s ∉ st.reverseItemAliasMappings.keys ∧
        AliasFromUpdatedItemName st s = ((s, false), st))) := by
  constructor
  · cases h : st.itemAliasMappings.get s with
    | none =>
      right
      refine ⟨?_, by simp [UpdatedItemNameFromAlias, h]⟩
      intro hk
      have := (GoMap.get_isSome_iff_mem_keys _ _).mpr hk
      simp [h] at this
    | some v =>
      left
      refine ⟨v, ?_, GoMap.mem_of_get _ _ _ h, rfl, by simp [UpdatedItemNameFromAlias, h]⟩
      exact (GoMap.get_isSome_iff_mem_keys _ _).mp (by simp [h])
  · cases h : st.reverseItemAliasMappings.get s with
    | none =>
      right
      refine ⟨?_, by simp [AliasFromUpdatedItemName, h]⟩
      intro hk
      have := (GoMap.get_isSome_iff_mem_keys _ _).mpr hk
      simp [h] at this
    | some v =>
      left
      refine ⟨v, ?_, GoMap.mem_of_get _ _ _ h, rfl, by simp [AliasFromUpdatedItemName, h]⟩
      exact (GoMap.get_isSome_iff_mem_keys _ _).mp (by simp [h])

end latestmappings

end Tedac

namespace Tedac

namespace gostd

theorem indexByte_eq_none (l : List Char) (c : Char) (h : c ∉ l) : indexByte l c = none := by
  induction l with
  | nil => rfl
  | cons x xs ih =>
    have hx : ¬ x = c := fun hh => h (by simp [hh])
    have hxs : c ∉ xs := fun hh => h (List.mem_cons_of_mem _ hh)
    simp [indexByte, hx, ih hxs]

theorem lastIndexByte_eq_none (l : List Char) (c : Char) (h : c ∉ l) :
    lastIndexByte l c = none := by
  induction l with
  | nil => rfl
  | cons x xs ih =>
    have hx : ¬ x = c := fun hh => h (by simp [hh])
    have hxs : c ∉ xs := fun hh => h (List.mem_cons_of_mem _ hh)
    simp [lastIndexByte, hx, ih hxs]

theorem lastIndexByte_append (h p : List Char) (c : Char) (hp : c ∉ p) :
    lastIndexByte (h ++ c :: p) c = some h.length := by
  induction h with
  | nil => simp [lastIndexByte, lastIndexByte_eq_none p c hp]
  | cons x xs ih => simp [lastIndexByte, ih]

/-- On a plain `host:port` string (no colon or bracket inside host or port) `SplitHostPort`
returns the two parts. -/
theorem SplitHostPort_plain (host port : String)
    (hh : ∀ c ∈ host.toList, c ≠ ':' ∧ c ≠ '[' ∧ c ≠ ']')
    (hp : ∀ c ∈ port.toList, c ≠ ':' ∧ c ≠ '[' ∧ c ≠ ']') :
    SplitHostPort (host ++ ":" ++ port) = some (host, port) := by
  have hlist : (host ++ ":" ++ port).toList = host.toList ++ ':' :: port.toList := by
    simp [String.toList]
  have hcolon_p : ':' ∉ port.toList := fun hm => (hp _ hm).1 rfl
  have hcolon_h : ':' ∉ host.toList := fun hm => (hh _ hm).1 rfl
  have hopen : '[' ∉ host.toList ++ ':' :: port.toList := by
    intro hm
    rcases List.mem_append.mp hm with h1 | h1
    · exact (hh _ h1).2.1 rfl
    · rcases List.mem_cons.mp h1 with h2 | h2
      · exact absurd h2 (by decide)
      · exact (hp _ h2).2.1 rfl
  have hclose : ']' ∉ host.toList ++ ':' :: port.toList := by
    intro hm
    rcases List.mem_append.mp hm with h1 | h1
    · exact (hh _ h1).2.2 rfl
    · rcases List.mem_cons.mp h1 with h2 | h2
      · exact absurd h2 (by decide)
      · exact (hp _ h2).2.2 rfl
  have hhead : ¬ (host.toList ++ ':' :: port.toList).head? = some '[' := by
    intro hm
    exact hopen (List.mem_of_mem_head? hm)
  unfold SplitHostPort
  simp only [hlist, lastIndexByte_append _ _ _ hcolon_p, hhead, if_false]
  have htake : List.take host.toList.length (host.toList ++ ':' :: port.toList) = host.toList := by
    simp
  have hdrop : List.drop (host.toList.length + 1) (host.toList ++ ':' :: port.toList)
      = port.toList := by
    rw [show host.toList ++ ':' :: port.toList = (host.toList ++ [':']) ++ port.toList by simp]
    rw [List.drop_left' (by simp)]
  rw [htake, hdrop, indexByte_eq_none _ _ hcolon_h, indexByte_eq_none _ _ hopen,
    indexByte_eq_none _ _ hclose]
  simp [String.toList]

end gostd

end Tedac

namespace Tedac

namespace bridge

theorem transcodeEntry_acc {S B : Type} (env : ChunkEnv S B) (r : Range) (acc : Bytes × List B)
    (e : SubChunkEntry) :
    transcodeEntry env r acc e
      = (acc.1 ++ (transcodeEntry env r ([], []) e).1,
          acc.2 ++ (transcodeEntry env r ([], []) e).2) := by
  unfold transcodeEntry
  by_cases h : e.Result ≠ SubChunkResultSuccess
  · simp [h]
  · simp only [h, if_false]
    cases env.DecodeSubChunk r e.RawPayload with
    | none => simp
    | some x => simp

theorem foldl_transcodeEntry {S B : Type} (env : ChunkEnv S B) (r : Range)
    (entries : List SubChunkEntry) (acc : Bytes × List B) :
    entries.foldl (transcodeEntry env r) acc
      = (acc.1 ++ subChunkParts env r entries, acc.2 ++ collectedBlockEntities env r entries) := by
  induction entries generalizing acc with
  | nil => simp [subChunkParts, collectedBlockEntities]
  | cons e es ih =>
    simp only [subChunkParts, collectedBlockEntities, List.foldl_cons]
    rw [ih (transcodeEntry env r acc e), ih (transcodeEntry env r ([], []) e)]
    rw [transcodeEntry_acc env r acc e]
    simp [List.append_assoc]

theorem subChunkParts_append {S B : Type} (env : ChunkEnv S B) (r : Range)
    (xs ys : List SubChunkEntry) :
    subChunkParts env r (xs ++ ys) = subChunkParts env r xs ++ subChunkParts env r ys := by
  have h := foldl_transcodeEntry env r ys (xs.foldl (transcodeEntry env r) ([], []))
  simp only [subChunkParts, List.foldl_append]
  rw [h]
  simp [subChunkParts]

theorem subChunkParts_cons {S B : Type} (env : ChunkEnv S B) (r : Range)
    (e : SubChunkEntry) (es : List SubChunkEntry) :
    subChunkParts env r (e :: es)
      = (transcodeEntry env r ([], []) e).1 ++ subChunkParts env r es := by
  have h := foldl_transcodeEntry env r es (transcodeEntry env r ([], []) e)
  simp only [subChunkParts, List.foldl_cons]
  rw [h]
  simp [subChunkParts]

theorem collectedBlockEntities_cons {S B : Type} (env : ChunkEnv S B) (r : Range)
    (e : SubChunkEntry) (es : List SubChunkEntry) :
    collectedBlockEntities env r (e :: es)
      = (transcodeEntry env r ([], []) e).2 ++ collectedBlockEntities env r es := by
  have h := foldl_transcodeEntry env r es (transcodeEntry env r ([], []) e)
  simp only [collectedBlockEntities, List.foldl_cons]
  rw [h]
  simp [collectedBlockEntities]

theorem transcodeEntry_failed {S B : Type} (env : ChunkEnv S B) (r : Range)
    (acc : Bytes × List B) (e : SubChunkEntry) (h : e.Result ≠ SubChunkResultSuccess) :
    transcodeEntry env r acc e
      = (acc.1 ++ [env.SubChunkVersion, 0, toUint8 e.Offset.2.1], acc.2) := by
  simp [transcodeEntry, h, airPlaceholder]

theorem subChunkParts_all_failed {S B : Type} (env : ChunkEnv S B) (r : Range)
    (entries : List SubChunkEntry) (h : ∀ e ∈ entries, e.Result ≠ SubChunkResultSuccess) :
    subChunkParts env r entries
        = entries.flatMap (fun e => [env.SubChunkVersion, 0, toUint8 e.Offset.2.1]) ∧
      collectedBlockEntities env r entries = [] := by
  induction entries with
  | nil => simp [subChunkParts, collectedBlockEntities]
  | cons e es ih =>
    have he := h e (List.mem_cons_self _ _)
    have hes := ih (fun x hx => h x (List.mem_cons_of_mem _ hx))
    rw [subChunkParts_cons, collectedBlockEntities_cons, transcodeEntry_failed env r _ e he,
      hes.1, hes.2]
    simp

theorem encodeBlockEntities_acc {S B : Type} (env : ChunkEnv S B) (buf : Bytes) (bes : List B) :
    encodeBlockEntities env buf bes = buf ++ encodeBlockEntities env [] bes := by
  induction bes generalizing buf with
  | nil => simp [encodeBlockEntities]
  | cons b bs ih =>
    simp only [encodeBlockEntities, List.foldl_cons] at ih ⊢
    rw [ih (buf ++ env.nbtEncode b), ih ([] ++ env.nbtEncode b)]
    simp [List.append_assoc]

/-- The layout of the terrain payload: sub chunk parts, biome data, one 0 byte, block entities. -/
theorem transcodePayload_layout {S B : Type} (env : ChunkEnv S B) (r : Range)
    (entries : List SubChunkEntry) (biome : Option Bytes) :
    transcodePayload env r entries biome
      = subChunkParts env r entries ++ (biome.getD [] ++ [0]
          ++ encodeBlockEntities env [] (collectedBlockEntities env r entries)) := by
  unfold transcodePayload
  simp only []
  rw [encodeBlockEntities_acc]
  simp [subChunkParts, collectedBlockEntities, List.append_assoc]

theorem serverToClient_subChunk {S B : Type} (env : ChunkEnv S B) (info : ConnInfo) (t : Tedac)
    (st : ConnState) (p : SubChunk) (htedac : info.tedacProtocol = true) :
    serverToClient env info t st (.subChunk p)
      = some
        { t := t
          st :=
            { st with
              biomeBufferCache :=
                cacheDelete st.biomeBufferCache (p.Position.1, p.Position.2.2) }
          toServer := []
          toClient :=
            [.levelChunk
              { Position := (p.Position.1, p.Position.2.2)
                Dimension := 0
                HighestSubChunk := 0
                SubChunkCount := toUint32 p.SubChunkEntries.length
                CacheEnabled := false
                BlobHashes := []
                RawPayload :=
                  transcodePayload env info.r p.SubChunkEntries
                    (st.biomeBufferCache (p.Position.1, p.Position.2.2)) }] } := by
  simp [serverToClient, htedac]

/-- C3: when a SubChunk response is transcoded for a tedac client, one LevelChunk is written
whose payload holds, for every entry whose Result is not success, exactly the three bytes
`SubChunkVersion, 0, uint8(Offset[1])` at the entry's position in received order (after the
parts of the entries before it, before the parts of the entries after it); when all entries
failed the payload is the concatenation of the placeholders followed by the biome data and
the 0 delimiter. -/
theorem failed_entries_emit_air_placeholder {S B : Type} (env : ChunkEnv S B) (info : ConnInfo)
    (t : Tedac) (st : ConnState) (p : SubChunk) (htedac : info.tedacProtocol = true) :
    ∃ (res : StepResult) (lc : LevelChunk),
      serverToClient env info t st (.subChunk p) = some res ∧
      res.toClient = [.levelChunk lc] ∧
      (∀ (pre post : List SubChunkEntry) (e : SubChunkEntry),
        p.SubChunkEntries = pre ++ e :: post → e.Result ≠ SubChunkResultSuccess →
        lc.RawPayload
          = subChunkParts env info.r pre ++ [env.SubChunkVersion, 0, toUint8 e.Offset.2.1]
            ++ subChunkParts env info.r post
            ++ ((st.biomeBufferCache (p.Position.1, p.Position.2.2)).getD [] ++ [0]
              ++ encodeBlockEntities env []
                (collectedBlockEntities env info.r p.SubChunkEntries))) ∧
      ((∀ e ∈ p.SubChunkEntries, e.Result ≠ SubChunkResultSuccess) →
        lc.RawPayload
          = p.SubChunkEntries.flatMap (fun e => [env.SubChunkVersion, 0, toUint8 e.Offset.2.1])
            ++ ((st.biomeBufferCache (p.Position.1, p.Position.2.2)).getD [] ++ [0])) := by
  refine ⟨_, _, serverToClient_subChunk env info t st p htedac, rfl, ?_, ?_⟩
  · intro pre post e hsplit hfail
    simp only [transcodePayload_layout]
    rw [hsplit, subChunkParts_append, subChunkParts_cons,
      transcodeEntry_failed env info.r _ e hfail]
    simp [List.append_assoc]
  · intro hall
    simp only [transcodePayload_layout]
    obtain ⟨h1, h2⟩ := subChunkParts_all_failed env info.r p.SubChunkEntries hall
    rw [h1, h2]
    simp [encodeBlockEntities]

/-- Witness of `failed_entries_emit_air_placeholder`: the sample response to a tedac client. -/
theorem failed_entries_emit_air_placeholder_witness :
    (ConnInfo.new true toyGameData).tedacProtocol = true ∧
    ∃ (res : StepResult) (lc : LevelChunk),
      serverToClient toyEnv (ConnInfo.new true toyGameData) toyTedac
          (ConnState.new toyGameData) (.subChunk toySubChunk) = some res ∧
      res.toClient = [.levelChunk lc] ∧
      (∀ (pre post : List SubChunkEntry) (e : SubChunkEntry),
        toySubChunk.SubChunkEntries = pre ++ e :: post → e.Result ≠ SubChunkResultSuccess →
        lc.RawPayload
          = subChunkParts toyEnv (ConnInfo.new true toyGameData).r pre
            ++ [toyEnv.SubChunkVersion, 0, toUint8 e.Offset.2.1]
            ++ subChunkParts toyEnv (ConnInfo.new true toyGameData).r post
            ++ (((ConnState.new toyGameData).biomeBufferCache
                  (toySubChunk.Position.1, toySubChunk.Position.2.2)).getD [] ++ [0]
              ++ encodeBlockEntities toyEnv []
                (collectedBlockEntities toyEnv (ConnInfo.new true toyGameData).r
                  toySubChunk.SubChunkEntries))) ∧
      ((∀ e ∈ toySubChunk.SubChunkEntries, e.Result ≠ SubChunkResultSuccess) →
        lc.RawPayload
          = toySubChunk.SubChunkEntries.flatMap
              (fun e => [toyEnv.SubChunkVersion, 0, toUint8 e.Offset.2.1])
            ++ (((ConnState.new toyGameData).biomeBufferCache
                  (toySubChunk.Position.1, toySubChunk.Position.2.2)).getD [] ++ [0])) :=
  ⟨rfl,
    failed_entries_emit_air_placeholder toyEnv (ConnInfo.new true toyGameData) toyTedac
      (ConnState.new toyGameData) toySubChunk rfl⟩

/-- C4 (the code departs from the claim): an entry with Result success whose payload
`chunk.DecodeSubChunk` rejects leaves `chunkBuf` and `blockEntities` as they were, so it
contributes no byte at all, not the 3-byte placeholder; the other entries are processed and
the packet is still emitted, with a SubChunkCount that counts the entry. On the sample
response the second entry is such an entry: the payload is the placeholder of entry one, the
part of entry three, the placeholder of entry four, the delimiter and two block entities, and
the declared count is 4. -/
theorem decode_error_entry_writes_nothing :
    (∀ (S B : Type) (env : ChunkEnv S B) (r : Range) (acc : Bytes × List B) (e : SubChunkEntry),
        e.Result = SubChunkResultSuccess → env.DecodeSubChunk r e.RawPayload = none →
        transcodeEntry env r acc e = acc) ∧
      toyEnv.DecodeSubChunk overworldRange [] = none ∧
      (serverToClient toyEnv (ConnInfo.new true toyGameData) toyTedac (ConnState.new toyGameData)
          (.subChunk toySubChunk)).map (fun res => res.toClient)
        = some
          [.levelChunk
            { Position := (3, 7)
              Dimension := 0
              HighestSubChunk := 0
              SubChunkCount := 4
              CacheEnabled := false
              BlobHashes := []
              RawPayload := [9, 0, 252, 0, 10, 11, 9, 0, 3, 0, 50, 51] }] := by
  refine ⟨?_, rfl, by decide⟩
  intro S B env r acc e hres hdec
  simp [transcodeEntry, hres, hdec]

/-- C5: for a SubChunk response read while the client uses the tedac protocol, the relay
writes exactly one packet to the client, a LevelChunk whose SubChunkCount is the number of
entries and whose Position is the response's (x, z); nothing is written to the server and the
SubChunk packet itself is not forwarded. -/
theorem subchunk_response_yields_one_level_chunk {S B : Type} (env : ChunkEnv S B)
    (info : ConnInfo) (t : Tedac) (st : ConnState) (p : SubChunk)
    (htedac : info.tedacProtocol = true) (hlen : p.SubChunkEntries.length < 4294967296) :
    ∃ (res : StepResult) (lc : LevelChunk),
      serverToClient env info t st (.subChunk p) = some res ∧
      res.toClient = [.levelChunk lc] ∧
      res.toServer = [] ∧
      lc.SubChunkCount = p.SubChunkEntries.length ∧
      lc.Position = (p.Position.1, p.Position.2.2) ∧
      Packet.subChunk p ∉ res.toClient := by
  refine ⟨_, _, serverToClient_subChunk env info t st p htedac, rfl, rfl, ?_, rfl, ?_⟩
  · simp [toUint32, Nat.mod_eq_of_lt hlen]
  · simp

/-- Witness of `subchunk_response_yields_one_level_chunk`: the sample response. -/
theorem subchunk_response_yields_one_level_chunk_witness :
    (ConnInfo.new true toyGameData).tedacProtocol = true ∧
    toySubChunk.SubChunkEntries.length < 4294967296 ∧
    ∃ (res : StepResult) (lc : LevelChunk),
      serverToClient toyEnv (ConnInfo.new true toyGameData) toyTedac
          (ConnState.new toyGameData) (.subChunk toySubChunk) = some res ∧
      res.toClient = [.levelChunk lc] ∧
      res.toServer = [] ∧
      lc.SubChunkCount = toySubChunk.SubChunkEntries.length ∧
      lc.Position = (toySubChunk.Position.1, toySubChunk.Position.2.2) ∧
      Packet.subChunk toySubChunk ∉ res.toClient :=
  ⟨rfl, by decide,
    subchunk_response_yields_one_level_chunk toyEnv (ConnInfo.new true toyGameData) toyTedac
      (ConnState.new toyGameData) toySubChunk rfl (by decide)⟩

/-- C6: after a SubChunk response for (x, z) is transcoded (tedac client), whatever the
cache held: the step returns (no fault), the cache has no entry for (x, z), every other key
is unchanged, and the payload is the sub chunk parts, then the cached bytes (nothing when there
was no entry), then one 0 byte, then the block entity stream. -/
theorem subchunk_response_consumes_biome_entry {S B : Type} (env : ChunkEnv S B)
    (info : ConnInfo) (t : Tedac) (st : ConnState) (p : SubChunk)
    (htedac : info.tedacProtocol = true) :
    ∃ (res : StepResult) (lc : LevelChunk),
      serverToClient env info t st (.subChunk p) = some res ∧
      res.toClient = [.levelChunk lc] ∧
      res.st.biomeBufferCache (p.Position.1, p.Position.2.2) = none ∧
      (∀ k : Int × Int, k ≠ (p.Position.1, p.Position.2.2) →
        res.st.biomeBufferCache k = st.biomeBufferCache k) ∧
      (∀ biome : Bytes, st.biomeBufferCache (p.Position.1, p.Position.2.2) = some biome →
        lc.RawPayload
          = subChunkParts env info.r p.SubChunkEntries ++ biome ++ [0]
            ++ encodeBlockEntities env []
              (collectedBlockEntities env info.r p.SubChunkEntries)) ∧
      (st.biomeBufferCache (p.Position.1, p.Position.2.2) = none →
        lc.RawPayload
          = subChunkParts env info.r p.SubChunkEntries ++ [0]
            ++ encodeBlockEntities env []
              (collectedBlockEntities env info.r p.SubChunkEntries)) := by
  refine ⟨_, _, serverToClient_subChunk env info t st p htedac, rfl, ?_, ?_, ?_, ?_⟩
  · simp [cacheDelete]
  · intro k hk
    simp [cacheDelete, hk]
  · intro biome hb
    simp only [transcodePayload_layout, hb]
    simp [List.append_assoc]
  · intro hb
    simp only [transcodePayload_layout, hb]
    simp [List.append_assoc]

/-- Witness of `subchunk_response_consumes_biome_entry`: the sample response, with a biome
entry stored for its chunk and one for another chunk. -/
theorem subchunk_response_consumes_biome_entry_witness :
    (ConnInfo.new true toyGameData).tedacProtocol = true ∧
    ∃ (res : StepResult) (lc : LevelChunk),
      serverToClient toyEnv (ConnInfo.new true toyGameData) toyTedac
          { ConnState.new toyGameData with
            biomeBufferCache := cacheStore (cacheStore (fun _ => none) (3, 7) [21, 22]) (0, 0) [5] }
          (.subChunk toySubChunk) = some res ∧
      res.toClient = [.levelChunk lc] ∧
      res.st.biomeBufferCache (toySubChunk.Position.1, toySubChunk.Position.2.2) = none ∧
      (∀ k : Int × Int, k ≠ (toySubChunk.Position.1, toySubChunk.Position.2.2) →
        res.st.biomeBufferCache k
          = cacheStore (cacheStore (fun _ => none) (3, 7) [21, 22]) (0, 0) [5] k) ∧
      (∀ biome : Bytes,
        cacheStore (cacheStore (fun _ => none) (3, 7) [21, 22]) (0, 0) [5]
            (toySubChunk.Position.1, toySubChunk.Position.2.2) = some biome →
        lc.RawPayload
          = subChunkParts toyEnv (ConnInfo.new true toyGameData).r toySubChunk.SubChunkEntries
            ++ biome ++ [0]
            ++ encodeBlockEntities toyEnv []
              (collectedBlockEntities toyEnv (ConnInfo.new true toyGameData).r
                toySubChunk.SubChunkEntries)) ∧
      (cacheStore (cacheStore (fun _ => none) (3, 7) [21, 22]) (0, 0) [5]
            (toySubChunk.Position.1, toySubChunk.Position.2.2) = none →
        lc.RawPayload
          = subChunkParts toyEnv (ConnInfo.new true toyGameData).r toySubChunk.SubChunkEntries
            ++ [0]
            ++ encodeBlockEntities toyEnv []
              (collectedBlockEntities toyEnv (ConnInfo.new true toyGameData).r
                toySubChunk.SubChunkEntries)) :=
  ⟨rfl,
    subchunk_response_consumes_biome_entry toyEnv (ConnInfo.new true toyGameData) toyTedac
      { ConnState.new toyGameData with
        biomeBufferCache := cacheStore (cacheStore (fun _ => none) (3, 7) [21, 22]) (0, 0) [5] }
      toySubChunk rfl⟩

theorem serverToClient_levelChunk_limited {S B : Type} (env : ChunkEnv S B) (info : ConnInfo)
    (t : Tedac) (st : ConnState) (p : LevelChunk) (htedac : info.tedacProtocol = true)
    (hmode : p.SubChunkCount = SubChunkRequestModeLimited) (hpayload : p.RawPayload ≠ []) :
    serverToClient env info t st (.levelChunk p)
      = some
        { t := t
          st :=
            { st with
              biomeBufferCache :=
                cacheStore st.biomeBufferCache p.Position
                  (p.RawPayload.take (p.RawPayload.length - 1)) }
          toServer :=
            [.subChunkRequest
              { Dimension := 0
                Position := (p.Position.1, 0, p.Position.2)
                Offsets := requestOffsets info.r (p.HighestSubChunk : Int) }]
          toClient := [] } := by
  have h1 : ¬ ((p.HighestSubChunk : Int) < 0) := by omega
  have h2 : ¬ (p.RawPayload.length = 0) := by
    intro h
    exact hpayload (List.length_eq_zero.mp h)
  simp [serverToClient, htedac, hmode, h1, h2]

theorem toInt8_of_range (x : Int) (h1 : -128 ≤ x) (h2 : x ≤ 127) : toInt8 x = x := by
  unfold toInt8
  omega

/-- C7, as stated, fails: for the limited sentinel with HighestSubChunk 5 the request written
upstream lists the 5 offsets -4, -3, -2, -1, 0 (overworld range), not the 6 offsets 0..5. -/
theorem limited_request_is_not_zero_to_five :
    (serverToClient toyEnv (ConnInfo.new true toyGameData) toyTedac (ConnState.new toyGameData)
        (.levelChunk toyLevelChunk)).map (fun res => res.toServer)
      = some
        [.subChunkRequest
          { Dimension := 0
            Position := (3, 0, 7)
            Offsets := [(0, -4, 0), (0, -3, 0), (0, -2, 0), (0, -1, 0), (0, 0, 0)] }] ∧
    ¬ ∃ (res : StepResult) (req : SubChunkRequest),
        serverToClient toyEnv (ConnInfo.new true toyGameData) toyTedac
            (ConnState.new toyGameData) (.levelChunk toyLevelChunk) = some res ∧
        res.toServer = [.subChunkRequest req] ∧
        req.Offsets.map (fun o => o.2.1) = [0, 1, 2, 3, 4, 5] := by
  have hstep := serverToClient_levelChunk_limited toyEnv (ConnInfo.new true toyGameData) toyTedac
    (ConnState.new toyGameData) toyLevelChunk rfl rfl (by decide)
  constructor
  · rw [hstep]
    decide
  · rintro ⟨res, req, h1, h2, h3⟩
    rw [hstep] at h1
    simp only [Option.some.injEq] at h1
    subst h1
    simp only [List.cons.injEq, Packet.subChunkRequest.injEq, and_true] at h2
    subst h2
    revert h3
    decide

/-- C7 (amended): when the server sends a LevelChunk with a non-empty payload whose
SubChunkCount is the limited sentinel and whose HighestSubChunk is h to a tedac client, the
SubChunkRequest written upstream (for position (x, 0, z), nothing is written to the client)
lists exactly h offsets, whose vertical components are `int8(i + (min >> 4))` for
i = 0, ..., h-1 in that order, `min` being the bottom of the vertical range; for the overworld
range (min = -64) and h ≤ 132 these are -4, -3, ..., h-5. -/
theorem limited_request_offsets {S B : Type} (env : ChunkEnv S B) (info : ConnInfo)
    (t : Tedac) (st : ConnState) (p : LevelChunk) (htedac : info.tedacProtocol = true)
    (hmode : p.SubChunkCount = SubChunkRequestModeLimited) (hpayload : p.RawPayload ≠ []) :
    ∃ (res : StepResult) (req : SubChunkRequest),
      serverToClient env info t st (.levelChunk p) = some res ∧
      res.toServer = [.subChunkRequest req] ∧
      res.toClient = [] ∧
      req.Position = (p.Position.1, 0, p.Position.2) ∧
      req.Offsets.length = p.HighestSubChunk ∧
      req.Offsets
        = (List.range p.HighestSubChunk).map
            (fun (i : Nat) => ((0 : Int), toInt8 ((i : Int) + (info.r.min >>> 4)), (0 : Int))) ∧
      (info.r = overworldRange → p.HighestSubChunk ≤ 132 →
        req.Offsets = (List.range p.HighestSubChunk).map (fun (i : Nat) => ((0 : Int), (i : Int) - 4, (0 : Int)))) := by
  refine ⟨_, _, serverToClient_levelChunk_limited env info t st p htedac hmode hpayload,
    rfl, rfl, rfl, ?_, ?_, ?_⟩
  · simp [requestOffsets]
  · simp [requestOffsets]
  · intro hr hh
    simp only [requestOffsets, Int.toNat_ofNat, hr]
    apply List.map_congr_left
    intro i hi
    have hi2 : i < p.HighestSubChunk := List.mem_range.mp hi
    have hshift : (overworldRange.min >>> 4) = -4 := by decide
    rw [hshift, toInt8_of_range _ (by omega) (by omega)]
    rfl

/-- Witness of `limited_request_offsets`: the sample terrain packet sent to a tedac client. -/
theorem limited_request_offsets_witness :
    (ConnInfo.new true toyGameData).tedacProtocol = true ∧
    toyLevelChunk.SubChunkCount = SubChunkRequestModeLimited ∧
    toyLevelChunk.RawPayload ≠ [] ∧
    ∃ (res : StepResult) (req : SubChunkRequest),
      serverToClient toyEnv (ConnInfo.new true toyGameData) toyTedac
          (ConnState.new toyGameData) (.levelChunk toyLevelChunk) = some res ∧
      res.toServer = [.subChunkRequest req] ∧
      res.toClient = [] ∧
      req.Position = (toyLevelChunk.Position.1, 0, toyLevelChunk.Position.2) ∧
      req.Offsets.length = toyLevelChunk.HighestSubChunk ∧
      req.Offsets
        = (List.range toyLevelChunk.HighestSubChunk).map
            (fun (i : Nat) =>
              ((0 : Int), toInt8 ((i : Int) + ((ConnInfo.new true toyGameData).r.min >>> 4)),
                (0 : Int))) ∧
      ((ConnInfo.new true toyGameData).r = overworldRange →
        toyLevelChunk.HighestSubChunk ≤ 132 →
        req.Offsets
          = (List.range toyLevelChunk.HighestSubChunk).map (fun (i : Nat) => ((0 : Int), (i : Int) - 4, (0 : Int)))) :=
  ⟨rfl, rfl, by decide,
    limited_request_offsets toyEnv (ConnInfo.new true toyGameData) toyTedac
      (ConnState.new toyGameData) toyLevelChunk rfl rfl (by decide)⟩

/-- C10: for every Transfer packet read from the server with Address `a` and Port `p`, the
step sets `remoteAddress` to `a` followed by a colon and the decimal numeral of `p`, leaves
`localAddress`, and forwards to the client the packet with Address and Port replaced by
`LocalAddress()` and `LocalPort()`, the host part and the port part (converted with
`strconv.Atoi` and `uint16`) of `localAddress` as `net.SplitHostPort` splits it, which for a
plain `host:port` address are `host` and `port`, and every other field unchanged. With the default local address
and target example.com:9999 the remote address becomes "example.com:9999" and the client is
sent to 127.0.0.1, port 19132. -/
theorem transfer_rewrites_target {S B : Type} (env : ChunkEnv S B) (info : ConnInfo)
    (t : Tedac) (st : ConnState) (p : Transfer) :
    (∃ res : StepResult,
      serverToClient env info t st (.transfer p) = some res ∧
      res.t.remoteAddress = p.Address ++ ":" ++ toString p.Port ∧
      res.t.localAddress = t.localAddress ∧
      res.toServer = [] ∧
      res.toClient
        = [.transfer { Address := t.LocalAddress, Port := t.LocalPort,
                       ReloadWorld := p.ReloadWorld }] ∧
      (∀ host port : String, gostd.SplitHostPort t.localAddress = some (host, port) →
        t.LocalAddress = host ∧ t.LocalPort = toUint16 (gostd.Atoi port).1) ∧
      (∀ host port : String, t.localAddress = host ++ ":" ++ port →
        (∀ c ∈ host.toList, c ≠ ':' ∧ c ≠ '[' ∧ c ≠ ']') →
        (∀ c ∈ port.toList, c ≠ ':' ∧ c ≠ '[' ∧ c ≠ ']') →
        t.LocalAddress = host ∧ t.LocalPort = toUint16 (gostd.Atoi port).1)) ∧
    (serverToClient env info toyTedac st
        (.transfer { Address := "example.com", Port := 9999, ReloadWorld := false })).map
        (fun res => (res.t, res.toClient))
      = some
        ({ localAddress := "127.0.0.1:19132", remoteAddress := "example.com:9999" },
          [.transfer { Address := "127.0.0.1", Port := 19132, ReloadWorld := false }]) := by
  constructor
  · refine ⟨_, rfl, rfl, rfl, rfl, rfl, ?_, ?_⟩
    · intro host port hsplit
      simp [Tedac.LocalAddress, Tedac.LocalPort, hsplit]
    · intro host port haddr hh hp
      have hsplit := gostd.SplitHostPort_plain host port hh hp
      rw [← haddr] at hsplit
      simp [Tedac.LocalAddress, Tedac.LocalPort, hsplit]
  · simp only [serverToClient, Option.map_some']
    decide

end bridge

end Tedac

namespace Tedac

namespace legacypacket

theorem AddActor_marshal_write {Attr Meta Link Item : Type} (io : Codec Attr Meta Link Item)
    (pk : AddActor Attr Meta Link) (buf : Bytes) :
    AddActor.Marshal io .write pk buf = some (pk, buf ++ AddActor.encoding io pk) := by
  simp [AddActor.Marshal, AddActor.encoding, andThen, Prim.run, List.append_assoc]

theorem AddActor_marshal_read {Attr Meta Link Item : Type} (io : Codec Attr Meta Link Item)
    (pk pk0 : AddActor Attr Meta Link) (rest : Bytes) (h : AddActor.FieldsRoundTrip io pk) :
    AddActor.Marshal io .read pk0 (AddActor.encoding io pk ++ rest) = some (pk, rest) := by
  obtain ⟨h1, h2, h3, h4, h5, h6, h7, h8, h9, h10, h11⟩ := h
  simp only [Prim.RoundTripsAt] at h1 h2 h3 h4 h5 h6 h7 h8 h9 h10 h11
  simp [AddActor.Marshal, AddActor.encoding, andThen, Prim.run, List.append_assoc,
    h1, h2, h3, h4, h5, h6, h7, h8, h9, h10, h11]

theorem AddPlayer_marshal_write {Attr Meta Link Item : Type} (io : Codec Attr Meta Link Item)
    (pk : AddPlayer Meta Link Item) (buf : Bytes) :
    AddPlayer.Marshal io .write pk buf = some (pk, buf ++ AddPlayer.encoding io pk) := by
  simp [AddPlayer.Marshal, AddPlayer.encoding, andThen, Prim.run, List.append_assoc]

theorem AddPlayer_marshal_read {Attr Meta Link Item : Type} (io : Codec Attr Meta Link Item)
    (pk pk0 : AddPlayer Meta Link Item) (rest : Bytes) (h : AddPlayer.FieldsRoundTrip io pk) :
    AddPlayer.Marshal io .read pk0 (AddPlayer.encoding io pk ++ rest) = some (pk, rest) := by
  obtain ⟨h1, h2, h3, h4, h5, h6, h7, h8, h9, h10, h11, h12, h13, h14, h15, h16, h17, h18, h19, h20⟩ := h
  simp only [Prim.RoundTripsAt] at h1 h2 h3 h4 h5 h6 h7 h8 h9 h10 h11 h12 h13 h14 h15 h16 h17 h18 h19 h20
  simp [AddPlayer.Marshal, AddPlayer.encoding, andThen, Prim.run, List.append_assoc,
    h1, h2, h3, h4, h5, h6, h7, h8, h9, h10, h11, h12, h13, h14, h15, h16, h17, h18, h19, h20]

theorem InventorySlot_marshal_write {Attr Meta Link Item : Type} (io : Codec Attr Meta Link Item)
    (pk : InventorySlot Item) (buf : Bytes) :
    InventorySlot.Marshal io .write pk buf = some (pk, buf ++ InventorySlot.encoding io pk) := by
  simp [InventorySlot.Marshal, InventorySlot.encoding, andThen, Prim.run, List.append_assoc]

theorem InventorySlot_marshal_read {Attr Meta Link Item : Type} (io : Codec Attr Meta Link Item)
    (pk pk0 : InventorySlot Item) (rest : Bytes) (h : InventorySlot.FieldsRoundTrip io pk) :
    InventorySlot.Marshal io .read pk0 (InventorySlot.encoding io pk ++ rest) = some (pk, rest) := by
  obtain ⟨h1, h2, h3⟩ := h
  simp only [Prim.RoundTripsAt] at h1 h2 h3
  simp [InventorySlot.Marshal, InventorySlot.encoding, andThen, Prim.run, List.append_assoc,
    h1, h2, h3]

theorem MobArmourEquipment_marshal_write {Attr Meta Link Item : Type} (io : Codec Attr Meta Link Item)
    (pk : MobArmourEquipment Item) (buf : Bytes) :
    MobArmourEquipment.Marshal io .write pk buf = some (pk, buf ++ MobArmourEquipment.encoding io pk) := by
  simp [MobArmourEquipment.Marshal, MobArmourEquipment.encoding, andThen, Prim.run, List.append_assoc]

theorem MobArmourEquipment_marshal_read {Attr Meta Link Item : Type} (io : Codec Attr Meta Link Item)
    (pk pk0 : MobArmourEquipment Item) (rest : Bytes) (h : MobArmourEquipment.FieldsRoundTrip io pk) :
    MobArmourEquipment.Marshal io .read pk0 (MobArmourEquipment.encoding io pk ++ rest) = some (pk, rest) := by
  obtain ⟨h1, h2, h3, h4, h5⟩ := h
  simp only [Prim.RoundTripsAt] at h1 h2 h3 h4 h5
  simp [MobArmourEquipment.Marshal, MobArmourEquipment.encoding, andThen, Prim.run, List.append_assoc,
    h1, h2, h3, h4, h5]

/-- C8: for each of AddActor, AddPlayer, InventorySlot and MobArmourEquipment, provided every
primitive round-trips on the field it is applied to: running `Marshal` against a writer leaves
the packet and appends the encodings of the fields in the fixed order of `Marshal`, and running
`Marshal` of any packet (a fresh one in particular) against a reader over these bytes restores
every field and consumes exactly the bytes written (what follows them is left). -/
theorem marshal_round_trip {Attr Meta Link Item : Type} (io : Codec Attr Meta Link Item)
    (a : AddActor Attr Meta Link) (b : AddPlayer Meta Link Item) (c : InventorySlot Item)
    (d : MobArmourEquipment Item) (buf rest : Bytes)
    (ha : AddActor.FieldsRoundTrip io a) (hb : AddPlayer.FieldsRoundTrip io b)
    (hc : InventorySlot.FieldsRoundTrip io c) (hd : MobArmourEquipment.FieldsRoundTrip io d) :
    (AddActor.Marshal io .write a buf = some (a, buf ++ AddActor.encoding io a) ∧
      ∀ a0 : AddActor Attr Meta Link,
        AddActor.Marshal io .read a0 (AddActor.encoding io a ++ rest) = some (a, rest)) ∧
    (AddPlayer.Marshal io .write b buf = some (b, buf ++ AddPlayer.encoding io b) ∧
      ∀ b0 : AddPlayer Meta Link Item,
        AddPlayer.Marshal io .read b0 (AddPlayer.encoding io b ++ rest) = some (b, rest)) ∧
    (InventorySlot.Marshal io .write c buf = some (c, buf ++ InventorySlot.encoding io c) ∧
      ∀ c0 : InventorySlot Item,
        InventorySlot.Marshal io .read c0 (InventorySlot.encoding io c ++ rest)
          = some (c, rest)) ∧
    (MobArmourEquipment.Marshal io .write d buf
        = some (d, buf ++ MobArmourEquipment.encoding io d) ∧
      ∀ d0 : MobArmourEquipment Item,
        MobArmourEquipment.Marshal io .read d0 (MobArmourEquipment.encoding io d ++ rest)
          = some (d, rest)) :=
  ⟨⟨AddActor_marshal_write io a buf, fun a0 => AddActor_marshal_read io a a0 rest ha⟩,
    ⟨AddPlayer_marshal_write io b buf, fun b0 => AddPlayer_marshal_read io b b0 rest hb⟩,
    ⟨InventorySlot_marshal_write io c buf,
      fun c0 => InventorySlot_marshal_read io c c0 rest hc⟩,
    ⟨MobArmourEquipment_marshal_write io d buf,
      fun d0 => MobArmourEquipment_marshal_read io d d0 rest hd⟩⟩

theorem toyList_roundTripsAt (l : List Nat) (hlen : l.length < 256)
    (hall : ∀ x ∈ l, x < 256) : toyList.RoundTripsAt l := by
  intro rest
  have hmap : l.map (· % 256) = l := by
    have h := List.map_congr_left (l := l) (f := (· % 256)) (g := id)
      (fun x hx => Nat.mod_eq_of_lt (hall x hx))
    simpa using h
  simp only [toyList, hmap, Nat.mod_eq_of_lt hlen]
  simp

theorem toyString_roundTripsAt (str : String) (hlen : str.length < 256)
    (hall : ∀ c ∈ str.toList, c.toNat < 256) : toyString.RoundTripsAt str := by
  intro rest
  have hmap : (str.toList.map (fun c : Char => c.toNat % 256)).map Char.ofNat = str.toList := by
    rw [List.map_map]
    have h := List.map_congr_left (l := str.toList)
      (f := Char.ofNat ∘ fun c : Char => c.toNat % 256) (g := id)
      (fun c hc => by
        show Char.ofNat (c.toNat % 256) = c
        rw [Nat.mod_eq_of_lt (hall c hc), Char.ofNat_toNat])
    simpa using h
  have hlen2 : (str.toList.map (fun c : Char => c.toNat % 256)).length = str.length := by
    rw [List.length_map]
    rfl
  have hle : str.length
      ≤ (str.toList.map (fun c : Char => c.toNat % 256) ++ rest).length := by
    rw [List.length_append, hlen2]
    omega
  show (if str.length % 256 ≤ (str.toList.map (fun c : Char => c.toNat % 256) ++ rest).length
      then some (String.mk (((str.toList.map (fun c : Char => c.toNat % 256) ++ rest).take
          (str.length % 256)).map Char.ofNat),
        (str.toList.map (fun c : Char => c.toNat % 256) ++ rest).drop (str.length % 256))
      else none) = some (str, rest)
  rw [Nat.mod_eq_of_lt hlen, if_pos hle]
  rw [← hlen2, List.take_left, List.drop_left, hmap]
  cases str
  rfl

theorem toyAddActor_fieldsRoundTrip : AddActor.FieldsRoundTrip toyCodec toyAddActor :=
  ⟨fun _ => rfl, fun _ => rfl, toyString_roundTripsAt "pig" (by decide) (by decide),
    fun _ => rfl, fun _ => rfl, fun _ => rfl, fun _ => rfl, fun _ => rfl,
    toyList_roundTripsAt [4, 5] (by decide) (by decide), fun _ => rfl,
    toyList_roundTripsAt [] (by decide) (by decide)⟩

theorem toyAddPlayer_fieldsRoundTrip : AddPlayer.FieldsRoundTrip toyCodec toyAddPlayer :=
  ⟨toyList_roundTripsAt [1, 2] (by decide) (by decide),
    toyString_roundTripsAt "bob" (by decide) (by decide), fun _ => rfl, fun _ => rfl,
    toyString_roundTripsAt "" (by decide) (by decide), fun _ => rfl, fun _ => rfl,
    fun _ => rfl, fun _ => rfl, fun _ => rfl, fun _ => rfl, fun _ => rfl, fun _ => rfl,
    fun _ => rfl, fun _ => rfl, fun _ => rfl, fun _ => rfl, fun _ => rfl,
    toyList_roundTripsAt [8] (by decide) (by decide),
    toyString_roundTripsAt "d" (by decide) (by decide)⟩

theorem toyInventorySlot_fieldsRoundTrip :
    InventorySlot.FieldsRoundTrip toyCodec toyInventorySlot :=
  ⟨fun _ => rfl, fun _ => rfl, fun _ => rfl⟩

theorem toyMobArmourEquipment_fieldsRoundTrip :
    MobArmourEquipment.FieldsRoundTrip toyCodec toyMobArmourEquipment :=
  ⟨fun _ => rfl, fun _ => rfl, fun _ => rfl, fun _ => rfl, fun _ => rfl⟩

/-- Witness of `marshal_round_trip`: the sample packets under the sample codec, written to an
empty buffer and read back from a stream with two more bytes. -/
theorem marshal_round_trip_witness :
    (AddActor.FieldsRoundTrip toyCodec toyAddActor ∧
      AddPlayer.FieldsRoundTrip toyCodec toyAddPlayer ∧
      InventorySlot.FieldsRoundTrip toyCodec toyInventorySlot ∧
      MobArmourEquipment.FieldsRoundTrip toyCodec toyMobArmourEquipment) ∧
    (AddActor.Marshal toyCodec .write toyAddActor []
        = some (toyAddActor, [] ++ AddActor.encoding toyCodec toyAddActor) ∧
      ∀ a0 : AddActor Nat Nat Nat,
        AddActor.Marshal toyCodec .read a0 (AddActor.encoding toyCodec toyAddActor ++ [1, 2])
          = some (toyAddActor, [1, 2])) ∧
    (AddPlayer.Marshal toyCodec .write toyAddPlayer []
        = some (toyAddPlayer, [] ++ AddPlayer.encoding toyCodec toyAddPlayer) ∧
      ∀ b0 : AddPlayer Nat Nat Nat,
        AddPlayer.Marshal toyCodec .read b0 (AddPlayer.encoding toyCodec toyAddPlayer ++ [1, 2])
          = some (toyAddPlayer, [1, 2])) ∧
    (InventorySlot.Marshal toyCodec .write toyInventorySlot []
        = some (toyInventorySlot, [] ++ InventorySlot.encoding toyCodec toyInventorySlot) ∧
      ∀ c0 : InventorySlot Nat,
        InventorySlot.Marshal toyCodec .read c0
            (InventorySlot.encoding toyCodec toyInventorySlot ++ [1, 2])
          = some (toyInventorySlot, [1, 2])) ∧
    (MobArmourEquipment.Marshal toyCodec .write toyMobArmourEquipment []
        = some (toyMobArmourEquipment,
          [] ++ MobArmourEquipment.encoding toyCodec toyMobArmourEquipment) ∧
      ∀ d0 : MobArmourEquipment Nat,
        MobArmourEquipment.Marshal toyCodec .read d0
            (MobArmourEquipment.encoding toyCodec toyMobArmourEquipment ++ [1, 2])
          = some (toyMobArmourEquipment, [1, 2])) :=
  ⟨⟨toyAddActor_fieldsRoundTrip, toyAddPlayer_fieldsRoundTrip, toyInventorySlot_fieldsRoundTrip,
      toyMobArmourEquipment_fieldsRoundTrip⟩,
    marshal_round_trip toyCodec toyAddActor toyAddPlayer toyInventorySlot toyMobArmourEquipment
      [] [1, 2] toyAddActor_fieldsRoundTrip toyAddPlayer_fieldsRoundTrip
      toyInventorySlot_fieldsRoundTrip toyMobArmourEquipment_fieldsRoundTrip⟩

/-- C9 (the code departs from the claim): `Marshal` hands `pk.Data` to `ByteSlice` by value,
so whatever `ByteSlice` and the primitives do, decoding into a fresh zero-valued
ResourcePackChunkData never restores Data: every successful decode leaves Data empty. Under
the sample codec the packet with Data = [7, 8] is written as eight bytes and read back with
UUID, ChunkIndex and DataOffset restored and Data = []. -/
theorem resource_pack_chunk_data_read_drops_data :
    (∀ (Attr Meta Link Item : Type) (io : Codec Attr Meta Link Item) (ByteSlice : ByteSliceFn)
        (buf rest : Bytes) (pk : ResourcePackChunkData),
        ResourcePackChunkData.Marshal io ByteSlice .read ResourcePackChunkData.zero buf
            = some (pk, rest) →
        pk.Data = []) ∧
      ResourcePackChunkData.Marshal toyCodec toyByteSlice .write toyResourcePackChunkData []
        = some (toyResourcePackChunkData, [2, 97, 98, 1, 2, 2, 7, 8]) ∧
      ResourcePackChunkData.Marshal toyCodec toyByteSlice .read ResourcePackChunkData.zero
          [2, 97, 98, 1, 2, 2, 7, 8]
        = some ({ UUID := "ab", ChunkIndex := 1, DataOffset := 2, Data := [] }, []) ∧
      toyResourcePackChunkData.Data ≠ [] := by
  refine ⟨?_, by decide, by decide, by decide⟩
  intro Attr Meta Link Item io ByteSlice buf rest pk h
  unfold ResourcePackChunkData.Marshal at h
  cases h1 : io.String.run .read ResourcePackChunkData.zero.UUID buf with
  | none => simp [h1, andThen] at h
  | some r1 =>
    cases h2 : io.Uint32.run .read ResourcePackChunkData.zero.ChunkIndex r1.2 with
    | none => simp [h1, h2, andThen] at h
    | some r2 =>
      cases h3 : io.Uint64.run .read ResourcePackChunkData.zero.DataOffset r2.2 with
      | none => simp [h1, h2, h3, andThen] at h
      | some r3 =>
        cases h4 : ByteSlice .read ResourcePackChunkData.zero.Data r3.2 with
        | none => simp [h1, h2, h3, h4, andThen] at h
        | some r4 =>
          simp only [h1, h2, h3, h4, andThen, Option.some.injEq, Prod.mk.injEq] at h
          rw [← h.1]
          exact List.length_eq_zero.mp r4.1.2

end legacypacket

end Tedac

namespace Tedac

namespace latestmappings

/-- C16: for any embedded table (any iteration order of the first loop of `init`, any fair
order of the second) and every name `n`: if `AliasFromUpdatedItemName n` returns `(a, true)`
then `UpdatedItemNameFromAlias a` returns `(n, true)`; every entry of the reverse table is the
inversion of an entry of the forward table. -/
theorem reverse_entry_inverts_forward (first second : Schedule) (hfair : second.Fair)
    (unmarshal : Bytes → Option (List (String × String))) (data : Bytes) (st : Tables)
    (n a : String) (hinit : init first second unmarshal data = some st)
    (hrev : (AliasFromUpdatedItemName st n).1 = (a, true)) :
    UpdatedItemNameFromAlias (AliasFromUpdatedItemName st n).2 a = ((n, true), st) ∧
      (UpdatedItemNameFromAlias st (AliasFromUpdatedItemName st n).1.1).1.1 = n := by
  obtain ⟨hnodup, hbuilt⟩ := init_spec first second unmarshal data st hinit
  have hget : st.reverseItemAliasMappings.get n = some a := by
    unfold AliasFromUpdatedItemName at hrev
    cases h : st.reverseItemAliasMappings.get n with
    | none => simp [h] at hrev
    | some a' =>
      simp only [h, Prod.mk.injEq, and_true] at hrev
      rw [hrev]
  have hfwd : st.itemAliasMappings.get a = some n := by
    have h := hget
    rw [hbuilt] at h
    rcases reverseLoop_get _ _ _ _ h with h1 | h1
    · exact GoMap.get_of_mem _ _ _ hnodup ((hfair st.itemAliasMappings).mem_iff.mp h1)
    · simp [GoMap.get] at h1
  constructor
  · simp [AliasFromUpdatedItemName, UpdatedItemNameFromAlias, hget, hfwd]
  · simp [AliasFromUpdatedItemName, UpdatedItemNameFromAlias, hget, hfwd]

/-- Witness of `reverse_entry_inverts_forward`: the table {a ↦ x, b ↦ x}, iterated in list
order, at the name `x`, whose alias in the reverse table is `b`. -/
theorem reverse_entry_inverts_forward_witness :
    (AliasFromUpdatedItemName
        { itemAliasMappings :=
            [("a", "x"), ("b", "x"), ("minecraft:a", "minecraft:x"),
              ("minecraft:b", "minecraft:x")]
          reverseItemAliasMappings := [("x", "b"), ("minecraft:x", "minecraft:b")] } "x").1
      = ("b", true) ∧
    UpdatedItemNameFromAlias
        (AliasFromUpdatedItemName
          { itemAliasMappings :=
              [("a", "x"), ("b", "x"), ("minecraft:a", "minecraft:x"),
                ("minecraft:b", "minecraft:x")]
            reverseItemAliasMappings := [("x", "b"), ("minecraft:x", "minecraft:b")] } "x").2
        "b"
      = (("x", true),
        { itemAliasMappings :=
            [("a", "x"), ("b", "x"), ("minecraft:a", "minecraft:x"),
              ("minecraft:b", "minecraft:x")]
          reverseItemAliasMappings := [("x", "b"), ("minecraft:x", "minecraft:b")] }) ∧
    (UpdatedItemNameFromAlias
        { itemAliasMappings :=
            [("a", "x"), ("b", "x"), ("minecraft:a", "minecraft:x"),
              ("minecraft:b", "minecraft:x")]
          reverseItemAliasMappings := [("x", "b"), ("minecraft:x", "minecraft:b")] }
        (AliasFromUpdatedItemName
          { itemAliasMappings :=
              [("a", "x"), ("b", "x"), ("minecraft:a", "minecraft:x"),
                ("minecraft:b", "minecraft:x")]
            reverseItemAliasMappings := [("x", "b"), ("minecraft:x", "minecraft:b")] }
          "x").1.1).1.1 = "x" :=
  ⟨by decide,
    reverse_entry_inverts_forward id id (fun m => List.Perm.refl m)
      (fun _ => some [("a", "x"), ("b", "x")]) []
      { itemAliasMappings :=
          [("a", "x"), ("b", "x"), ("minecraft:a", "minecraft:x"),
            ("minecraft:b", "minecraft:x")]
        reverseItemAliasMappings := [("x", "b"), ("minecraft:x", "minecraft:b")] }
      "x" "b" (by decide) (by decide)⟩

end latestmappings

namespace bridge

theorem shiftRight_four_nonneg (h : Int) (hh : 0 ≤ h) : 0 ≤ h >>> 4 := by
  obtain ⟨m, rfl⟩ := Int.eq_ofNat_of_zero_le hh
  have h4 : ((m : Int) >>> (4 : Int)) = ((m >>> 4 : Nat) : Int) := Int.shiftRight_coe_nat m 4
  rw [h4]
  exact Int.natCast_nonneg _

theorem serverToClient_levelChunk_sentinel {S B : Type} (env : ChunkEnv S B) (info : ConnInfo)
    (t : Tedac) (st : ConnState) (p : LevelChunk) (htedac : info.tedacProtocol = true)
    (hmode : p.SubChunkCount = SubChunkRequestModeLimitless ∨
      p.SubChunkCount = SubChunkRequestModeLimited)
    (hheight : 0 ≤ info.r.Height) (hpayload : p.RawPayload ≠ []) :
    serverToClient env info t st (.levelChunk p)
      = some
        { t := t
          st :=
            { st with
              biomeBufferCache :=
                cacheStore st.biomeBufferCache p.Position
                  (p.RawPayload.take (p.RawPayload.length - 1)) }
          toServer :=
            [.subChunkRequest
              { Dimension := 0
                Position := (p.Position.1, 0, p.Position.2)
                Offsets :=
                  requestOffsets info.r
                    (if p.SubChunkCount = SubChunkRequestModeLimited then
                      (p.HighestSubChunk : Int)
                    else info.r.Height >>> 4) }]
          toClient := [] } := by
  have h0 : ¬ (p.SubChunkCount ≠ SubChunkRequestModeLimitless ∧
      p.SubChunkCount ≠ SubChunkRequestModeLimited) := by
    rintro ⟨h1, h2⟩
    rcases hmode with h | h
    · exact h1 h
    · exact h2 h
  have hshift : 0 ≤ info.r.Height >>> 4 := shiftRight_four_nonneg _ hheight
  have h1 : ¬ ((if p.SubChunkCount = SubChunkRequestModeLimited then (p.HighestSubChunk : Int)
      else info.r.Height >>> 4) < 0) := by
    split_ifs
    · omega
    · omega
  have h2 : ¬ (p.RawPayload.length = 0) := by
    intro h
    exact hpayload (List.length_eq_zero.mp h)
  simp only [serverToClient, htedac, h0, h1, h2, if_false, Bool.not_true, Bool.false_eq_true]

theorem serverToClient_levelChunk_empty {S B : Type} (env : ChunkEnv S B) (info : ConnInfo)
    (t : Tedac) (st : ConnState) (p : LevelChunk) (htedac : info.tedacProtocol = true)
    (hmode : p.SubChunkCount = SubChunkRequestModeLimitless ∨
      p.SubChunkCount = SubChunkRequestModeLimited)
    (hpayload : p.RawPayload = []) :
    serverToClient env info t st (.levelChunk p) = none := by
  have h0 : ¬ (p.SubChunkCount ≠ SubChunkRequestModeLimitless ∧
      p.SubChunkCount ≠ SubChunkRequestModeLimited) := by
    rintro ⟨h1, h2⟩
    rcases hmode with h | h
    · exact h1 h
    · exact h2 h
  simp only [serverToClient, htedac, h0, hpayload, List.length_nil, if_false, Bool.not_true,
    Bool.false_eq_true, if_true]
  split_ifs <;> rfl

/-- C13 (the code departs from the claim): for the limitless sentinel the number of offsets
requested is `r.Height() >> 4` with `Height() = max - min`, one less than the number of sub
chunks `(max >> 4) - (min >> 4) + 1` of the range whenever the range is made of whole sub
chunks. For the overworld range (-64..319, 24 sub chunks -4..19) the request written upstream
lists the 23 offsets -4..18 and leaves out the top sub chunk 19. -/
theorem limitless_request_leaves_out_top_sub_chunk :
    (∀ (S B : Type) (env : ChunkEnv S B) (info : ConnInfo) (t : Tedac) (st : ConnState)
        (p : LevelChunk),
        info.tedacProtocol = true → p.SubChunkCount = SubChunkRequestModeLimitless →
        p.RawPayload ≠ [] → 0 ≤ info.r.Height →
        ∃ (res : StepResult) (req : SubChunkRequest),
          serverToClient env info t st (.levelChunk p) = some res ∧
          res.toServer = [.subChunkRequest req] ∧
          req.Offsets.length = (info.r.Height >>> 4).toNat ∧
          req.Offsets
            = (List.range (info.r.Height >>> 4).toNat).map
                (fun (i : Nat) =>
                  ((0 : Int), toInt8 ((i : Int) + (info.r.min >>> 4)), (0 : Int)))) ∧
      overworldRange.Height >>> 4 = 23 ∧
      (overworldRange.max >>> 4) - (overworldRange.min >>> 4) + 1 = 24 ∧
      (serverToClient toyEnv (ConnInfo.new true toyGameData) toyTedac (ConnState.new toyGameData)
          (.levelChunk toyLevelChunkLimitless)).map (fun res => res.toServer)
        = some
          [.subChunkRequest
            { Dimension := 0
              Position := (3, 0, 7)
              Offsets :=
                [(0, -4, 0), (0, -3, 0), (0, -2, 0), (0, -1, 0), (0, 0, 0), (0, 1, 0),
                  (0, 2, 0), (0, 3, 0), (0, 4, 0), (0, 5, 0), (0, 6, 0), (0, 7, 0), (0, 8, 0),
                  (0, 9, 0), (0, 10, 0), (0, 11, 0), (0, 12, 0), (0, 13, 0), (0, 14, 0),
                  (0, 15, 0), (0, 16, 0), (0, 17, 0), (0, 18, 0)] }] := by
  refine ⟨?_, by decide, by decide, ?_⟩
  · intro S B env info t st p htedac hmode hpayload hheight
    have hne : ¬ (p.SubChunkCount = SubChunkRequestModeLimited) := by
      rw [hmode]
      decide
    refine ⟨_, _,
      serverToClient_levelChunk_sentinel env info t st p htedac (Or.inl hmode) hheight hpayload,
      rfl, ?_, ?_⟩
    · simp [requestOffsets, hne]
    · simp [requestOffsets, hne]
  · rw [serverToClient_levelChunk_sentinel toyEnv (ConnInfo.new true toyGameData) toyTedac
      (ConnState.new toyGameData) toyLevelChunkLimitless rfl (Or.inl rfl) (by decide)
      (by decide)]
    decide

/-- C14 (the code departs from the claim): interception of a sentinel LevelChunk for a tedac
client evaluates `pk.RawPayload[:len(pk.RawPayload)-1]`, which faults when RawPayload is
empty: the step panics, nothing is stored and nothing is written. For a non-empty RawPayload
the claim holds: the payload without its last byte is stored under (x, z), one SubChunkRequest
for (x, 0, z) is written upstream and nothing is written to the client. -/
theorem level_chunk_interception_faults_on_empty_payload :
    (∀ (S B : Type) (env : ChunkEnv S B) (info : ConnInfo) (t : Tedac) (st : ConnState)
        (p : LevelChunk),
        info.tedacProtocol = true →
        (p.SubChunkCount = SubChunkRequestModeLimitless ∨
          p.SubChunkCount = SubChunkRequestModeLimited) →
        p.RawPayload = [] →
        serverToClient env info t st (.levelChunk p) = none) ∧
      (∀ (S B : Type) (env : ChunkEnv S B) (info : ConnInfo) (t : Tedac) (st : ConnState)
        (p : LevelChunk),
        info.tedacProtocol = true →
        (p.SubChunkCount = SubChunkRequestModeLimitless ∨
          p.SubChunkCount = SubChunkRequestModeLimited) →
        p.RawPayload ≠ [] → 0 ≤ info.r.Height →
        ∃ (res : StepResult) (req : SubChunkRequest),
          serverToClient env info t st (.levelChunk p) = some res ∧
          res.st.biomeBufferCache p.Position = some p.RawPayload.dropLast ∧
          (∀ k : Int × Int, k ≠ p.Position →
            res.st.biomeBufferCache k = st.biomeBufferCache k) ∧
          res.toServer = [.subChunkRequest req] ∧
          req.Position = (p.Position.1, 0, p.Position.2) ∧
          res.toClient = []) ∧
      serverToClient toyEnv (ConnInfo.new true toyGameData) toyTedac
          (ConnState.new toyGameData)
          (.levelChunk { toyLevelChunk with RawPayload := [] }) = none := by
  refine ⟨?_, ?_, ?_⟩
  · intro S B env info t st p htedac hmode hpayload
    exact serverToClient_levelChunk_empty env info t st p htedac hmode hpayload
  · intro S B env info t st p htedac hmode hpayload hheight
    refine ⟨_, _,
      serverToClient_levelChunk_sentinel env info t st p htedac hmode hheight hpayload,
      ?_, ?_, rfl, rfl, rfl⟩
    · simp [cacheStore, List.dropLast_eq_take]
    · intro k hk
      simp [cacheStore, hk]
  · exact serverToClient_levelChunk_empty toyEnv (ConnInfo.new true toyGameData) toyTedac
      (ConnState.new toyGameData) { toyLevelChunk with RawPayload := [] } rfl (Or.inr rfl) rfl

theorem clientToServer_writes (acts : PlayerActions) (info : ConnInfo) (st : ConnState)
    (pk : Packet) :
    (clientToServer acts info st pk).2 = if intercepted acts info pk then [] else [pk] := by
  cases pk with
  | movePlayer p =>
    cases h : info.oldMovementSystem <;> simp [clientToServer, intercepted, h]
  | playerAction p =>
    cases h : info.oldMovementSystem
    · simp [clientToServer, intercepted, h]
    · simp only [clientToServer, intercepted, h, PlayerActions.all, Bool.not_true,
        Bool.false_eq_true, if_false, Bool.true_and, List.mem_cons, List.mem_singleton,
        List.not_mem_nil, or_false, decide_eq_true_eq]
      split_ifs <;> simp_all
  | moveActorAbsolute p => simp [clientToServer, intercepted]
  | moveActorDelta p => simp [clientToServer, intercepted]
  | subChunk p => simp [clientToServer, intercepted]
  | levelChunk p => simp [clientToServer, intercepted]
  | subChunkRequest p => simp [clientToServer, intercepted]
  | transfer p => simp [clientToServer, intercepted]
  | other id body => simp [clientToServer, intercepted]

/-- C15, as stated, fails: whatever the nine action types of the switch are, in legacy mode
some PlayerAction packet (one with another action type) is written to the server. -/
theorem some_player_action_is_forwarded :
    ¬ ∃ acts : PlayerActions, ∀ (info : ConnInfo) (st : ConnState) (p : PlayerAction),
        info.oldMovementSystem = true →
        (clientToServer acts info st (.playerAction p)).2 = [] := by
  rintro ⟨acts, h⟩
  have hstep := h (ConnInfo.new true toyGameData) (ConnState.new toyGameData)
    { EntityRuntimeID := 1
      ActionType :=
        max acts.Jump (max acts.StartSprint (max acts.StopSprint (max acts.StartSneak
          (max acts.StopSneak (max acts.StartSwimming (max acts.StopSwimming
            (max acts.StartGlide acts.StopGlide))))))) + 1
      BlockPosition := (0, 0, 0)
      ResultPosition := (0, 0, 0)
      BlockFace := 0 } rfl
  rw [clientToServer_writes] at hstep
  have hnot : intercepted acts (ConnInfo.new true toyGameData)
      (.playerAction
        { EntityRuntimeID := 1
          ActionType :=
            max acts.Jump (max acts.StartSprint (max acts.StopSprint (max acts.StartSneak
              (max acts.StopSneak (max acts.StartSwimming (max acts.StopSwimming
                (max acts.StartGlide acts.StopGlide))))))) + 1
          BlockPosition := (0, 0, 0)
          ResultPosition := (0, 0, 0)
          BlockFace := 0 }) = false := by
    simp only [intercepted, PlayerActions.all, Bool.and_eq_false_imp, decide_eq_false_iff_not,
      List.mem_cons, List.mem_singleton, List.not_mem_nil, or_false]
    intro _
    omega
  rw [hnot] at hstep
  simp at hstep

/-- C15 (amended): the client relay hands to the server, unchanged and in read order, exactly
the packets it does not intercept. In legacy mode it intercepts every MovePlayer packet and
every PlayerAction packet whose action type is one of the nine of the switch (jump, start and
stop sprint, sneak, swimming, glide); every other packet, a PlayerAction with another action
type included, is written to the server. In a non-legacy session every packet is written to
the server. -/
theorem client_relay_forwards_all_but_intercepted (acts : PlayerActions) (info : ConnInfo)
    (st : ConnState) (reads : List Packet) :
    (clientRelay acts info st reads).2
        = reads.filter (fun pk => !intercepted acts info pk) ∧
      (info.oldMovementSystem = false → (clientRelay acts info st reads).2 = reads) ∧
      (info.oldMovementSystem = true →
        (∀ p : MovePlayer, intercepted acts info (.movePlayer p) = true) ∧
        (∀ p : PlayerAction, p.ActionType ∈ acts.all →
          intercepted acts info (.playerAction p) = true) ∧
        (∀ p : PlayerAction, p.ActionType ∉ acts.all →
          intercepted acts info (.playerAction p) = false) ∧
        (∀ pk : Packet, (∀ p, pk ≠ .movePlayer p) → (∀ p, pk ≠ .playerAction p) →
          intercepted acts info pk = false)) := by
  have hmain : ∀ (st : ConnState) (reads : List Packet),
      (clientRelay acts info st reads).2
        = reads.filter (fun pk => !intercepted acts info pk) := by
    intro st reads
    induction reads generalizing st with
    | nil => rfl
    | cons pk rest ih =>
      simp only [clientRelay, clientToServer_writes, ih, List.filter_cons]
      cases intercepted acts info pk <;> simp
  refine ⟨hmain st reads, ?_, ?_⟩
  · intro hlegacy
    rw [hmain]
    apply List.filter_eq_self.mpr
    intro pk _
    cases pk <;> simp [intercepted, hlegacy]
  · intro hlegacy
    refine ⟨?_, ?_, ?_, ?_⟩
    · intro p
      simp [intercepted, hlegacy]
    · intro p hp
      simp [intercepted, hlegacy, hp]
    · intro p hp
      simp [intercepted, hlegacy, hp]
    · intro pk h1 h2
      cases pk with
      | movePlayer p => exact absurd rfl (h1 p)
      | playerAction p => exact absurd rfl (h2 p)
      | moveActorAbsolute p => rfl
      | moveActorDelta p => rfl
      | subChunk p => rfl
      | levelChunk p => rfl
      | subChunkRequest p => rfl
      | transfer p => rfl
      | other id body => rfl

theorem Bitset.load_set (b : Bitset) (i j : Nat) :
    (Bitset.Set b i).Load j = (b.Load j || decide (i = j)) := by
  simp [Bitset.Set, Bitset.Load, Nat.testBit_or, Nat.one_shiftLeft, Nat.testBit_two_pow]

theorem load_fire (swapped : Bool) (bit : Nat) (inputs : Bitset) (j : Nat) :
    (fire swapped bit inputs).Load j = (inputs.Load j || (swapped && decide (bit = j))) := by
  cases swapped <;> simp [fire, Bitset.load_set]

theorem newBitset_load (j : Nat) : NewBitset.Load j = false := by
  simp [NewBitset, Bitset.Load]

theorem tickStep_toServer (fe : FloatEnv) (fl : InputFlags) (info : ConnInfo) (st : ConnState)
    (tick : Nat) (writeOk : Bool) :
    (tickStep fe fl info st tick writeOk).toServer = (tickStep fe fl info st tick true).toServer := by
  cases writeOk <;> rfl

/-- The bits of the input data of a tick are exactly the input flags of the edge flags that
were set. -/
theorem tickStep_load_iff (fe : FloatEnv) (fl : InputFlags) (info : ConnInfo) (st : ConnState)
    (tick : Nat) (writeOk : Bool) (j : Nat) :
    (tickStep fe fl info st tick writeOk).toServer.InputData.Load j = true ↔
      ∃ g : EdgeFlag, fl.bit g = j ∧ st.flag g = true := by
  rw [tickStep_toServer]
  simp only [tickStep, if_true, load_fire, newBitset_load,
    Bool.false_or, Bool.or_eq_true, Bool.and_eq_true, decide_eq_true_eq]
  constructor
  · intro h
    rcases h with (((((((h | h) | h) | h) | h) | h) | h) | h) | h
    · exact ⟨.startedSneaking, h.2, h.1⟩
    · exact ⟨.stoppedSneaking, h.2, h.1⟩
    · exact ⟨.startedSprinting, h.2, h.1⟩
    · exact ⟨.stoppedSprinting, h.2, h.1⟩
    · exact ⟨.startedGliding, h.2, h.1⟩
    · exact ⟨.stoppedGliding, h.2, h.1⟩
    · exact ⟨.startedSwimming, h.2, h.1⟩
    · exact ⟨.stoppedSwimming, h.2, h.1⟩
    · exact ⟨.startedJumping, h.2, h.1⟩
  · rintro ⟨g, hbit, hflag⟩
    cases g <;> simp only [InputFlags.bit, ConnState.flag] at hbit hflag <;> simp [hbit, hflag]

theorem tickStep_clears (fe : FloatEnv) (fl : InputFlags) (info : ConnInfo) (st : ConnState)
    (tick : Nat) (writeOk : Bool) (f : EdgeFlag) :
    (tickStep fe fl info st tick writeOk).st.flag f = false := by
  cases writeOk <;> cases f <;> rfl

theorem inputFlags_bit_injective (fl : InputFlags) (hfl : fl.all.Nodup) (f g : EdgeFlag)
    (h : fl.bit f = fl.bit g) : f = g := by
  have hmap : fl.all
      = List.map fl.bit
          [.startedSneaking, .stoppedSneaking, .startedSprinting, .stoppedSprinting,
            .startedGliding, .stoppedGliding, .startedSwimming, .stoppedSwimming,
            .startedJumping] := rfl
  rw [hmap] at hfl
  exact List.inj_on_of_nodup_map hfl (by cases f <;> simp) (by cases g <;> simp) h

theorem playerActions_action_injective (acts : PlayerActions) (hacts : acts.all.Nodup)
    (f g : EdgeFlag) (h : acts.action f = acts.action g) : f = g := by
  have hmap : acts.all
      = List.map acts.action
          [.startedJumping, .startedSprinting, .stoppedSprinting, .startedSneaking,
            .stoppedSneaking, .startedSwimming, .stoppedSwimming, .startedGliding,
            .stoppedGliding] := rfl
  rw [hmap] at hacts
  exact List.inj_on_of_nodup_map hacts (by cases f <;> simp) (by cases g <;> simp) h

/-- In legacy mode a PlayerAction packet sets the edge flag of the first case of the switch
that matches its action type, and changes nothing else. -/
theorem clientToServer_playerAction_flag (acts : PlayerActions) (info : ConnInfo)
    (hlegacy : info.oldMovementSystem = true) (st : ConnState) (p : PlayerAction)
    (g : EdgeFlag) :
    (clientToServer acts info st (.playerAction p)).1.flag g = true →
      st.flag g = true ∨ p.ActionType = acts.action g := by
  simp only [clientToServer, hlegacy, Bool.not_true, Bool.false_eq_true, if_false]
  split_ifs with h1 h2 h3 h4 h5 h6 h7 h8 h9 <;> cases g <;>
    simp only [ConnState.flag, PlayerActions.action] <;> intro h <;>
    first
      | exact Or.inl h
      | exact Or.inr (by assumption)

theorem clientToServer_sets_flag (acts : PlayerActions) (hacts : acts.all.Nodup)
    (info : ConnInfo) (hlegacy : info.oldMovementSystem = true) (st : ConnState)
    (p : PlayerAction) (f : EdgeFlag) (hp : p.ActionType = acts.action f) :
    (clientToServer acts info st (.playerAction p)).1.flag f = true := by
  have hinj := playerActions_action_injective acts hacts
  simp only [clientToServer, hlegacy, Bool.not_true, Bool.false_eq_true, if_false]
  split_ifs with h1 h2 h3 h4 h5 h6 h7 h8 h9
  · have := hinj f .startedJumping (by rw [← hp, h1]; rfl)
    subst this; rfl
  · have := hinj f .startedSprinting (by rw [← hp, h2]; rfl)
    subst this; rfl
  · have := hinj f .stoppedSprinting (by rw [← hp, h3]; rfl)
    subst this; rfl
  · have := hinj f .startedSneaking (by rw [← hp, h4]; rfl)
    subst this; rfl
  · have := hinj f .stoppedSneaking (by rw [← hp, h5]; rfl)
    subst this; rfl
  · have := hinj f .startedSwimming (by rw [← hp, h6]; rfl)
    subst this; rfl
  · have := hinj f .stoppedSwimming (by rw [← hp, h7]; rfl)
    subst this; rfl
  · have := hinj f .startedGliding (by rw [← hp, h8]; rfl)
    subst this; rfl
  · have := hinj f .stoppedGliding (by rw [← hp, h9]; rfl)
    subst this; rfl
  · exfalso
    cases f <;> simp only [PlayerActions.action] at hp <;> contradiction

theorem clientToServer_keeps_set (acts : PlayerActions) (info : ConnInfo) (st : ConnState)
    (pk : Packet) (f : EdgeFlag) (h : st.flag f = true) :
    (clientToServer acts info st pk).1.flag f = true := by
  cases pk with
  | movePlayer p =>
    cases hl : info.oldMovementSystem
    · simpa [clientToServer, hl] using h
    · simp only [clientToServer, hl, Bool.not_true, Bool.false_eq_true, if_false]
      cases f <;> exact h
  | playerAction p =>
    cases hl : info.oldMovementSystem
    · simpa [clientToServer, hl] using h
    · simp only [clientToServer, hl, Bool.not_true, Bool.false_eq_true, if_false]
      split_ifs <;> cases f <;> first | exact h | rfl
  | moveActorAbsolute p => exact h
  | moveActorDelta p => exact h
  | subChunk p => exact h
  | levelChunk p => exact h
  | subChunkRequest p => exact h
  | transfer p => exact h
  | other id body => exact h

theorem clientToServer_keeps_clear (acts : PlayerActions) (info : ConnInfo) (st : ConnState)
    (pk : Packet) (f : EdgeFlag) (h : st.flag f = false)
    (hsets : Event.sets acts f (.client pk) = false) :
    (clientToServer acts info st pk).1.flag f = false := by
  cases pk with
  | movePlayer p =>
    cases hl : info.oldMovementSystem
    · simpa [clientToServer, hl] using h
    · simp only [clientToServer, hl, Bool.not_true, Bool.false_eq_true, if_false]
      cases f <;> exact h
  | playerAction p =>
    cases hl : info.oldMovementSystem
    · simpa [clientToServer, hl] using h
    · have hne : p.ActionType ≠ acts.action f := by
        simpa [Event.sets] using hsets
      cases hflag : (clientToServer acts info st (.playerAction p)).1.flag f with
      | false => rfl
      | true =>
        rcases clientToServer_playerAction_flag acts info hl st p f hflag with h1 | h1
        · rw [h] at h1
          exact absurd h1 (by decide)
        · exact absurd h1 hne
  | moveActorAbsolute p => exact h
  | moveActorDelta p => exact h
  | subChunk p => exact h
  | levelChunk p => exact h
  | subChunkRequest p => exact h
  | transfer p => exact h
  | other id body => exact h

theorem runEvents_append (fe : FloatEnv) (fl : InputFlags) (acts : PlayerActions)
    (info : ConnInfo) (s : Session) (a b : List Event) :
    runEvents fe fl acts info s (a ++ b)
      = ((runEvents fe fl acts info (runEvents fe fl acts info s a).1 b).1,
          (runEvents fe fl acts info s a).2
            ++ (runEvents fe fl acts info (runEvents fe fl acts info s a).1 b).2) := by
  induction a generalizing s with
  | nil => simp [runEvents]
  | cons e rest ih =>
    cases e with
    | client pk =>
      rw [List.cons_append]
      simp only [runEvents]
      exact ih _
    | tick w =>
      rw [List.cons_append]
      simp only [runEvents]
      cases hr : s.running
      · simp only [Bool.false_eq_true, if_false]
        exact ih _
      · simp only [if_true]
        rw [ih]
        simp

theorem runEvents_tick_running (fe : FloatEnv) (fl : InputFlags) (acts : PlayerActions)
    (info : ConnInfo) (s : Session) (hrun : s.running = true) (w : Bool) (rest : List Event) :
    runEvents fe fl acts info s (.tick w :: rest)
      = ((runEvents fe fl acts info
            { st := (tickStep fe fl info s.st s.tick w).st
              tick := (tickStep fe fl info s.st s.tick w).tick
              running := (tickStep fe fl info s.st s.tick w).running } rest).1,
          { toServer := (tickStep fe fl info s.st s.tick w).toServer
            toClient := (tickStep fe fl info s.st s.tick w).toClient }
            :: (runEvents fe fl acts info
              { st := (tickStep fe fl info s.st s.tick w).st
                tick := (tickStep fe fl info s.st s.tick w).tick
                running := (tickStep fe fl info s.st s.tick w).running } rest).2) := by
  simp only [runEvents, hrun, if_true]

/-- Steps of the client relay alone write no tick output, leave the ticker as it is, and keep
every edge flag that is set. -/
theorem runEvents_no_ticks (fe : FloatEnv) (fl : InputFlags) (acts : PlayerActions)
    (info : ConnInfo) (s : Session) (evs : List Event)
    (hevs : ∀ e ∈ evs, e.isTick = false) :
    (runEvents fe fl acts info s evs).2 = [] ∧
      (runEvents fe fl acts info s evs).1.running = s.running ∧
      (runEvents fe fl acts info s evs).1.tick = s.tick ∧
      ∀ f : EdgeFlag, s.st.flag f = true →
        (runEvents fe fl acts info s evs).1.st.flag f = true := by
  induction evs generalizing s with
  | nil => simp [runEvents]
  | cons e rest ih =>
    have hrest : ∀ e ∈ rest, e.isTick = false := fun x hx => hevs x (List.mem_cons_of_mem _ hx)
    cases e with
    | client pk =>
      simp only [runEvents]
      obtain ⟨h1, h2, h3, h4⟩ := ih { s with st := (clientToServer acts info s.st pk).1 } hrest
      refine ⟨h1, h2, h3, ?_⟩
      intro f hf
      exact h4 f (clientToServer_keeps_set acts info s.st pk f hf)
    | tick w =>
      have := hevs (.tick w) (List.mem_cons_self _ _)
      simp [Event.isTick] at this

/-- While an edge flag is clear and no step sets it, no tick reports its input flag. -/
theorem runEvents_clear_flag (fe : FloatEnv) (fl : InputFlags) (hfl : fl.all.Nodup)
    (acts : PlayerActions) (info : ConnInfo) (f : EdgeFlag) (s : Session)
    (evs : List Event) (hclear : s.st.flag f = false)
    (hevs : ∀ e ∈ evs, Event.sets acts f e = false) :
    ∀ out ∈ (runEvents fe fl acts info s evs).2,
      out.toServer.InputData.Load (fl.bit f) = false := by
  induction evs generalizing s with
  | nil => simp [runEvents]
  | cons e rest ih =>
    have hrest : ∀ e ∈ rest, Event.sets acts f e = false :=
      fun x hx => hevs x (List.mem_cons_of_mem _ hx)
    cases e with
    | client pk =>
      simp only [runEvents]
      apply ih _ _ hrest
      exact clientToServer_keeps_clear acts info s.st pk f hclear
        (hevs _ (List.mem_cons_self _ _))
    | tick w =>
      simp only [runEvents]
      cases hr : s.running
      · simp only [Bool.false_eq_true, if_false]
        exact ih s hclear hrest
      · simp only [if_true]
        intro out hout
        rcases List.mem_cons.mp hout with h | h
        · rw [h]
          cases hload : (tickStep fe fl info s.st s.tick w).toServer.InputData.Load (fl.bit f) with
          | false => rfl
          | true =>
            obtain ⟨g, hg, hflag⟩ := (tickStep_load_iff fe fl info s.st s.tick w _).mp hload
            have := inputFlags_bit_injective fl hfl g f hg
            subst this
            rw [hclear] at hflag
            exact absurd hflag (by decide)
        · exact ih _ (tickStep_clears fe fl info s.st s.tick w f) hrest out h

/-- C11: in a legacy-mode session run as a sequence of client-relay steps and ticks, for each
of the nine edge flags `f`: after a set-flag step for `f` (a PlayerAction packet with the
action type of `f`), the next tick writes a PlayerAuthInput whose bitset has the input flag of
`f` and leaves `f` clear; no later tick has that input flag unless a set-flag step for `f`
comes in between; and a tick sets no bit other than the input flags of edge flags that were
set. -/
theorem edge_flag_fires_on_next_tick_only (fe : FloatEnv) (fl : InputFlags)
    (acts : PlayerActions) (info : ConnInfo) (hlegacy : info.oldMovementSystem = true)
    (hfl : fl.all.Nodup) (hacts : acts.all.Nodup) (f : EdgeFlag) (s : Session)
    (hrun : s.running = true) (p : PlayerAction) (hp : p.ActionType = acts.action f)
    (mid post : List Event) (w : Bool) (hmid : ∀ e ∈ mid, e.isTick = false)
    (hpost : ∀ e ∈ post, Event.sets acts f e = false) :
    ∃ (first : TickOutput) (rest : List TickOutput),
      (runEvents fe fl acts info s
          (.client (.playerAction p) :: mid ++ .tick w :: post)).2 = first :: rest ∧
      first.toServer.InputData.Load (fl.bit f) = true ∧
      (runEvents fe fl acts info s
          (.client (.playerAction p) :: mid ++ [.tick w])).1.st.flag f = false ∧
      (∀ out ∈ rest, out.toServer.InputData.Load (fl.bit f) = false) ∧
      (∀ (st : ConnState) (tick : Nat) (writeOk : Bool) (j : Nat),
        (tickStep fe fl info st tick writeOk).toServer.InputData.Load j = true →
        ∃ g : EdgeFlag, fl.bit g = j ∧ st.flag g = true) := by
  have hhead : ∀ e ∈ Event.client (.playerAction p) :: mid, e.isTick = false := by
    intro e he
    rcases List.mem_cons.mp he with h | h
    · rw [h]; rfl
    · exact hmid e h
  obtain ⟨h1, h2, _, h4⟩ :=
    runEvents_no_ticks fe fl acts info s (.client (.playerAction p) :: mid) hhead
  have hset : (runEvents fe fl acts info s (.client (.playerAction p) :: mid)).1.st.flag f
      = true := by
    have hstep := clientToServer_sets_flag acts hacts info hlegacy s.st p f hp
    have hmid' := runEvents_no_ticks fe fl acts info
      { s with st := (clientToServer acts info s.st (.playerAction p)).1 } mid hmid
    simp only [runEvents]
    exact hmid'.2.2.2 f hstep
  have hrun2 : (runEvents fe fl acts info s (.client (.playerAction p) :: mid)).1.running
      = true := by rw [h2, hrun]
  refine ⟨
    { toServer :=
        (tickStep fe fl info
          (runEvents fe fl acts info s (.client (.playerAction p) :: mid)).1.st
          (runEvents fe fl acts info s (.client (.playerAction p) :: mid)).1.tick w).toServer
      toClient :=
        (tickStep fe fl info
          (runEvents fe fl acts info s (.client (.playerAction p) :: mid)).1.st
          (runEvents fe fl acts info s (.client (.playerAction p) :: mid)).1.tick w).toClient },
    (runEvents fe fl acts info
      { st :=
          (tickStep fe fl info
            (runEvents fe fl acts info s (.client (.playerAction p) :: mid)).1.st
            (runEvents fe fl acts info s (.client (.playerAction p) :: mid)).1.tick w).st
        tick :=
          (tickStep fe fl info
            (runEvents fe fl acts info s (.client (.playerAction p) :: mid)).1.st
            (runEvents fe fl acts info s (.client (.playerAction p) :: mid)).1.tick w).tick
        running :=
          (tickStep fe fl info
            (runEvents fe fl acts info s (.client (.playerAction p) :: mid)).1.st
            (runEvents fe fl acts info s (.client (.playerAction p) :: mid)).1.tick
            w).running } post).2,
    ?_, ?_, ?_, ?_, ?_⟩
  · rw [runEvents_append, h1, List.nil_append, runEvents_tick_running _ _ _ _ _ hrun2]
  · exact (tickStep_load_iff fe fl info _ _ w _).mpr ⟨f, rfl, hset⟩
  · rw [runEvents_append, runEvents_tick_running _ _ _ _ _ hrun2]
    exact tickStep_clears fe fl info _ _ w f
  · exact runEvents_clear_flag fe fl hfl acts info f _ post
      (tickStep_clears fe fl info _ _ w f) hpost
  · intro st tick writeOk j hload
    exact (tickStep_load_iff fe fl info st tick writeOk j).mp hload

/-- Witness of `edge_flag_fires_on_next_tick_only`: a jump, then a movement packet, a tick and
two more ticks. -/
theorem edge_flag_fires_on_next_tick_only_witness :
    ∃ (first : TickOutput) (rest : List TickOutput),
      (runEvents toyFloatEnv toyFlags toyActions (ConnInfo.new true toyGameData)
          (Session.new (ConnInfo.new true toyGameData))
          (.client
              (.playerAction
                { EntityRuntimeID := 1, ActionType := 8, BlockPosition := (0, 0, 0),
                  ResultPosition := (0, 0, 0), BlockFace := 0 })
            :: [Event.client (.movePlayer toyMovePlayer)] ++ .tick true
              :: [Event.tick true, Event.tick true])).2 = first :: rest ∧
      first.toServer.InputData.Load (toyFlags.bit .startedJumping) = true ∧
      (runEvents toyFloatEnv toyFlags toyActions (ConnInfo.new true toyGameData)
          (Session.new (ConnInfo.new true toyGameData))
          (.client
              (.playerAction
                { EntityRuntimeID := 1, ActionType := 8, BlockPosition := (0, 0, 0),
                  ResultPosition := (0, 0, 0), BlockFace := 0 })
            :: [Event.client (.movePlayer toyMovePlayer)]
              ++ [.tick true])).1.st.flag .startedJumping = false ∧
      (∀ out ∈ rest, out.toServer.InputData.Load (toyFlags.bit .startedJumping) = false) ∧
      (∀ (st : ConnState) (tick : Nat) (writeOk : Bool) (j : Nat),
        (tickStep toyFloatEnv toyFlags (ConnInfo.new true toyGameData) st tick
            writeOk).toServer.InputData.Load j = true →
        ∃ g : EdgeFlag, toyFlags.bit g = j ∧ st.flag g = true) :=
  edge_flag_fires_on_next_tick_only toyFloatEnv toyFlags toyActions
    (ConnInfo.new true toyGameData) rfl (by decide) (by decide) .startedJumping
    (Session.new (ConnInfo.new true toyGameData)) rfl
    { EntityRuntimeID := 1, ActionType := 8, BlockPosition := (0, 0, 0),
      ResultPosition := (0, 0, 0), BlockFace := 0 }
    rfl [Event.client (.movePlayer toyMovePlayer)] [Event.tick true, Event.tick true] true
    (by decide) (by decide)

theorem clientToServer_lastPos (acts : PlayerActions) (info : ConnInfo) (st : ConnState)
    (pk : Packet) : (clientToServer acts info st pk).1.lastPos = st.lastPos := by
  cases pk with
  | movePlayer p => cases hl : info.oldMovementSystem <;> simp [clientToServer, hl]
  | playerAction p =>
    cases hl : info.oldMovementSystem
    · simp [clientToServer, hl]
    · simp only [clientToServer, hl, Bool.not_true, Bool.false_eq_true, if_false]
      split_ifs <;> rfl
  | moveActorAbsolute p => rfl
  | moveActorDelta p => rfl
  | subChunk p => rfl
  | levelChunk p => rfl
  | subChunkRequest p => rfl
  | transfer p => rfl
  | other id body => rfl

/-- A client packet other than MovePlayer leaves position, yaw and pitch as they are. -/
theorem clientToServer_keeps_movement (acts : PlayerActions) (info : ConnInfo) (st : ConnState)
    (pk : Packet) (hpk : ∀ p : MovePlayer, pk ≠ .movePlayer p) :
    (clientToServer acts info st pk).1.pos = st.pos ∧
      (clientToServer acts info st pk).1.yaw = st.yaw ∧
      (clientToServer acts info st pk).1.pitch = st.pitch := by
  cases pk with
  | movePlayer p => exact absurd rfl (hpk p)
  | playerAction p =>
    cases hl : info.oldMovementSystem
    · simp [clientToServer, hl]
    · simp only [clientToServer, hl, Bool.not_true, Bool.false_eq_true, if_false]
      split_ifs <;> exact ⟨rfl, rfl, rfl⟩
  | moveActorAbsolute p => exact ⟨rfl, rfl, rfl⟩
  | moveActorDelta p => exact ⟨rfl, rfl, rfl⟩
  | subChunk p => exact ⟨rfl, rfl, rfl⟩
  | levelChunk p => exact ⟨rfl, rfl, rfl⟩
  | subChunkRequest p => exact ⟨rfl, rfl, rfl⟩
  | transfer p => exact ⟨rfl, rfl, rfl⟩
  | other id body => exact ⟨rfl, rfl, rfl⟩

theorem tickStep_true (fe : FloatEnv) (fl : InputFlags) (info : ConnInfo) (st : ConnState)
    (tick : Nat) :
    (tickStep fe fl info st tick true).running = true ∧
      (tickStep fe fl info st tick true).st.pos = st.pos ∧
      (tickStep fe fl info st tick true).st.lastPos = st.pos ∧
      (tickStep fe fl info st tick true).st.yaw = st.yaw ∧
      (tickStep fe fl info st tick true).st.pitch = st.pitch ∧
      (tickStep fe fl info st tick true).toServer.Delta = Vec3.Sub fe st.pos st.lastPos ∧
      (tickStep fe fl info st tick true).toServer.Yaw = st.yaw ∧
      (tickStep fe fl info st tick true).toServer.HeadYaw = st.yaw ∧
      (tickStep fe fl info st tick true).toServer.Pitch = st.pitch ∧
      (tickStep fe fl info st tick true).toServer.Position = st.pos ∧
      (tickStep fe fl info st tick true).toClient
        = some
          { Position := (fe.toInt32 st.pos.x, fe.toInt32 st.pos.y, fe.toInt32 st.pos.z)
            Radius := ((info.data.ChunkRadius % 4294967296).toNat * 16) % 4294967296 } :=
  ⟨rfl, rfl, rfl, rfl, rfl, rfl, rfl, rfl, rfl, rfl, rfl⟩

/-- C12, as stated, fails: with the spawn position (0, 0, 0) and a client MovePlayer to
(0, 64, 0), the Delta of the next tick is not (0, 0, 0) under any float subtraction with
`64.0 - 0.0 = 64.0`; it is the move measured against the spawn position. -/
theorem first_move_delta_is_not_zero :
    ¬ ∃ fe : FloatEnv, fe.Sound ∧ ∀ data : GameData,
        (runEvents fe toyFlags toyActions (ConnInfo.new true data)
            (Session.new (ConnInfo.new true data))
            [.client (.movePlayer toyMovePlayer), .tick true]).2.map
            (fun out => out.toServer.Delta)
          = [{ x := 0, y := 0, z := 0 }] := by
  rintro ⟨fe, hfe, h⟩
  have h0 := h toyGameData
  have hy : fe.sub 1115684864 0 = 1115684864 := hfe.sub_zero 1115684864 (by unfold IsFinite; decide)
  have hrun : (runEvents fe toyFlags toyActions (ConnInfo.new true toyGameData)
      (Session.new (ConnInfo.new true toyGameData))
      [.client (.movePlayer toyMovePlayer), .tick true]).2.map (fun out => out.toServer.Delta)
      = [{ x := fe.sub 0 0, y := fe.sub 1115684864 0, z := fe.sub 0 0 }] := rfl
  rw [hrun, hy] at h0
  simp only [List.cons.injEq, Vec3.mk.injEq, and_true] at h0
  exact absurd h0.2.1 (by decide)

theorem toyFloatEnv_sound : toyFloatEnv.Sound :=
  { sub_zero := fun x _ => by simp [toyFloatEnv]
    sub_self := fun x _ => by
      by_cases h : x = 0 <;> simp [toyFloatEnv, h]
    toInt32_zero := by decide
    toInt32_sixty_four := by decide }

/-- The server relay panics exactly on the packets `serverFault` names. -/
theorem serverToClient_none_iff {S B : Type} (env : ChunkEnv S B) (info : ConnInfo) (t : Tedac)
    (st : ConnState) (pk : Packet) :
    serverToClient env info t st pk = none ↔ serverFault info pk = true := by
  cases pk with
  | movePlayer p => simp only [serverToClient, serverFault]; split_ifs <;> simp
  | moveActorAbsolute p => simp only [serverToClient, serverFault]; split_ifs <;> simp
  | moveActorDelta p => simp only [serverToClient, serverFault]; split_ifs <;> simp
  | playerAction p => simp [serverToClient, serverFault]
  | subChunk p => simp only [serverToClient, serverFault]; split_ifs <;> simp
  | levelChunk p =>
    simp only [serverToClient, serverFault]
    cases htd : info.tedacProtocol <;> split_ifs <;> simp_all
  | subChunkRequest p => simp [serverToClient, serverFault]
  | transfer p => simp [serverToClient, serverFault]
  | other id body => simp [serverToClient, serverFault]

/-- The server relay never touches the previous position, and stores position, yaw and pitch
only on a step that records a movement. -/
theorem serverToClient_movement {S B : Type} (env : ChunkEnv S B) (info : ConnInfo) (t : Tedac)
    (st : ConnState) (pk : Packet) (res : StepResult)
    (h : serverToClient env info t st pk = some res) :
    res.st.lastPos = st.lastPos ∧
      (Step.recordsMovement info (.server pk) = false →
        res.st.pos = st.pos ∧ res.st.yaw = st.yaw ∧ res.st.pitch = st.pitch) := by
  cases pk with
  | movePlayer p =>
    simp only [serverToClient] at h
    split_ifs at h with h1 h2 <;> simp only [Option.some.injEq] at h <;> subst h
    · exact ⟨rfl, fun _ => ⟨rfl, rfl, rfl⟩⟩
    · refine ⟨rfl, fun hrec => ?_⟩
      simp [Step.recordsMovement, h2] at hrec
      simp [hrec] at h1
    · exact ⟨rfl, fun _ => ⟨rfl, rfl, rfl⟩⟩
  | moveActorAbsolute p =>
    simp only [serverToClient] at h
    split_ifs at h with h1 h2 <;> simp only [Option.some.injEq] at h <;> subst h
    · exact ⟨rfl, fun _ => ⟨rfl, rfl, rfl⟩⟩
    · refine ⟨rfl, fun hrec => ?_⟩
      simp [Step.recordsMovement, h2] at hrec
      simp [hrec] at h1
    · exact ⟨rfl, fun _ => ⟨rfl, rfl, rfl⟩⟩
  | moveActorDelta p =>
    simp only [serverToClient] at h
    split_ifs at h with h1 h2 <;> simp only [Option.some.injEq] at h <;> subst h
    · exact ⟨rfl, fun _ => ⟨rfl, rfl, rfl⟩⟩
    · refine ⟨rfl, fun hrec => ?_⟩
      simp [Step.recordsMovement, h2] at hrec
      simp [hrec] at h1
    · exact ⟨rfl, fun _ => ⟨rfl, rfl, rfl⟩⟩
  | playerAction p =>
    simp only [serverToClient, Option.some.injEq] at h
    subst h
    exact ⟨rfl, fun _ => ⟨rfl, rfl, rfl⟩⟩
  | subChunk p =>
    simp only [serverToClient] at h
    split_ifs at h <;> simp only [Option.some.injEq] at h <;> subst h <;>
      exact ⟨rfl, fun _ => ⟨rfl, rfl, rfl⟩⟩
  | levelChunk p =>
    simp only [serverToClient] at h
    split_ifs at h <;> simp only [Option.some.injEq] at h <;> subst h <;>
      exact ⟨rfl, fun _ => ⟨rfl, rfl, rfl⟩⟩
  | subChunkRequest p =>
    simp only [serverToClient, Option.some.injEq] at h
    subst h
    exact ⟨rfl, fun _ => ⟨rfl, rfl, rfl⟩⟩
  | transfer p =>
    simp only [serverToClient, Option.some.injEq] at h
    subst h
    exact ⟨rfl, fun _ => ⟨rfl, rfl, rfl⟩⟩
  | other id body =>
    simp only [serverToClient, Option.some.injEq] at h
    subst h
    exact ⟨rfl, fun _ => ⟨rfl, rfl, rfl⟩⟩

theorem runSteps_append {S B : Type} (env : ChunkEnv S B) (fe : FloatEnv) (fl : InputFlags)
    (acts : PlayerActions) (info : ConnInfo) (t : Tedac) (s : Session) (a b : List Step)
    (t1 : Tedac) (s1 : Session) (o1 : List TickOutput)
    (ha : runSteps env fe fl acts info t s a = some (t1, s1, o1))
    (t2 : Tedac) (s2 : Session) (o2 : List TickOutput)
    (hb : runSteps env fe fl acts info t1 s1 b = some (t2, s2, o2)) :
    runSteps env fe fl acts info t s (a ++ b) = some (t2, s2, o1 ++ o2) := by
  induction a generalizing t s o1 with
  | nil =>
    simp only [runSteps, Option.some.injEq, Prod.mk.injEq] at ha
    obtain ⟨h1, h2, h3⟩ := ha
    subst h1 h2 h3
    simpa using hb
  | cons e rest ih =>
    rw [List.cons_append]
    cases e with
    | client pk =>
      simp only [runSteps] at ha ⊢
      exact ih _ _ _ ha
    | server pk =>
      simp only [runSteps] at ha ⊢
      cases hstep : serverToClient env info t s.st pk with
      | none => simp [hstep] at ha
      | some res =>
        simp only [hstep] at ha ⊢
        exact ih _ _ _ ha
    | tick w =>
      simp only [runSteps] at ha ⊢
      cases hr : s.running
      · simp only [hr, Bool.false_eq_true, if_false] at ha ⊢
        exact ih _ _ _ ha
      · simp only [hr, if_true] at ha ⊢
        cases hrest : runSteps env fe fl acts info t
            { st := (tickStep fe fl info s.st s.tick w).st
              tick := (tickStep fe fl info s.st s.tick w).tick
              running := (tickStep fe fl info s.st s.tick w).running } rest with
        | none => simp [hrest] at ha
        | some r =>
          obtain ⟨rt, rs, ro⟩ := r
          simp only [hrest, Option.some.injEq, Prod.mk.injEq] at ha
          obtain ⟨h1, h2, h3⟩ := ha
          subst h1 h2 h3
          rw [ih _ _ _ hrest]
          simp

/-- A run of the client relay and the ticker alone is a run of the whole session without
server steps. -/
theorem runSteps_of_events {S B : Type} (env : ChunkEnv S B) (fe : FloatEnv) (fl : InputFlags)
    (acts : PlayerActions) (info : ConnInfo) (t : Tedac) (s : Session) (evs : List Event) :
    runSteps env fe fl acts info t s (evs.map Event.toStep)
      = some (t, (runEvents fe fl acts info s evs).1, (runEvents fe fl acts info s evs).2) := by
  induction evs generalizing s with
  | nil => rfl
  | cons e rest ih =>
    cases e with
    | client pk =>
      simp only [List.map_cons, Event.toStep, runSteps, runEvents]
      exact ih _
    | tick w =>
      simp only [List.map_cons, Event.toStep, runSteps, runEvents]
      cases hr : s.running
      · simp only [Bool.false_eq_true, if_false]
        exact ih _
      · simp only [if_true]
        rw [ih]

/-- A client step that records no movement leaves position, yaw and pitch as they are. -/
theorem clientToServer_quiet (acts : PlayerActions) (info : ConnInfo) (st : ConnState)
    (pk : Packet) (hq : Step.recordsMovement info (.client pk) = false) :
    (clientToServer acts info st pk).1.pos = st.pos ∧
      (clientToServer acts info st pk).1.yaw = st.yaw ∧
      (clientToServer acts info st pk).1.pitch = st.pitch := by
  by_cases hm : ∃ p : MovePlayer, pk = .movePlayer p
  · obtain ⟨p, rfl⟩ := hm
    have hl : info.oldMovementSystem = false := by simpa [Step.recordsMovement] using hq
    simp [clientToServer, hl]
  · exact clientToServer_keeps_movement acts info st pk (fun p h => hm ⟨p, h⟩)

/-- Steps that record no movement and do not panic, with every upstream write of the ticker
successful: the run returns, the ticker keeps running, position, yaw and pitch stay, the
previous position stays equal to the position if it was, and without ticks nothing is written
and the previous position stays. -/
theorem runSteps_quiet {S B : Type} (env : ChunkEnv S B) (fe : FloatEnv) (fl : InputFlags)
    (acts : PlayerActions) (info : ConnInfo) (t : Tedac) (s : Session) (steps : List Step)
    (hrun : s.running = true)
    (hq : ∀ e ∈ steps, e ≠ .tick false ∧ Step.recordsMovement info e = false ∧
      Step.faults info e = false) :
    ∃ (t' : Tedac) (s' : Session) (outs : List TickOutput),
      runSteps env fe fl acts info t s steps = some (t', s', outs) ∧
      s'.running = true ∧ s'.st.pos = s.st.pos ∧ s'.st.yaw = s.st.yaw ∧
      s'.st.pitch = s.st.pitch ∧
      (s.st.lastPos = s.st.pos → s'.st.lastPos = s.st.pos) ∧
      ((∀ e ∈ steps, e.isTick = false) → outs = [] ∧ s'.st.lastPos = s.st.lastPos) := by
  induction steps generalizing t s with
  | nil => exact ⟨t, s, [], rfl, hrun, rfl, rfl, rfl, fun h => h, fun _ => ⟨rfl, rfl⟩⟩
  | cons e rest ih =>
    have hrest : ∀ e ∈ rest, e ≠ .tick false ∧ Step.recordsMovement info e = false ∧
        Step.faults info e = false := fun x hx => hq x (List.mem_cons_of_mem _ hx)
    obtain ⟨he1, he2, he3⟩ := hq e (List.mem_cons_self _ _)
    cases e with
    | client pk =>
      obtain ⟨k1, k3, k4⟩ := clientToServer_quiet acts info s.st pk he2
      have k2 := clientToServer_lastPos acts info s.st pk
      obtain ⟨t', s', outs, r1, r2, r3, r4, r5, r6, r7⟩ :=
        ih t { s with st := (clientToServer acts info s.st pk).1 } hrun hrest
      refine ⟨t', s', outs, ?_, r2, r3.trans k1, r4.trans k3, r5.trans k4, ?_, ?_⟩
      · simp only [runSteps]
        exact r1
      · intro hpos
        have := r6 (k2.trans (hpos.trans k1.symm))
        exact this.trans k1
      · intro hticks
        obtain ⟨q1, q2⟩ := r7 (fun x hx => hticks x (List.mem_cons_of_mem _ hx))
        exact ⟨q1, q2.trans k2⟩
    | server pk =>
      have hsome : serverToClient env info t s.st pk ≠ none := by
        intro hnone
        have := (serverToClient_none_iff env info t s.st pk).mp hnone
        simp only [Step.faults] at he3
        rw [he3] at this
        exact absurd this (by decide)
      obtain ⟨res, hres⟩ := Option.ne_none_iff_exists'.mp hsome
      obtain ⟨m1, m2⟩ := serverToClient_movement env info t s.st pk res hres
      obtain ⟨k1, k3, k4⟩ := m2 he2
      obtain ⟨t', s', outs, r1, r2, r3, r4, r5, r6, r7⟩ :=
        ih res.t { s with st := res.st } hrun hrest
      refine ⟨t', s', outs, ?_, r2, r3.trans k1, r4.trans k3, r5.trans k4, ?_, ?_⟩
      · simp only [runSteps, hres]
        exact r1
      · intro hpos
        have := r6 (m1.trans (hpos.trans k1.symm))
        exact this.trans k1
      · intro hticks
        obtain ⟨q1, q2⟩ := r7 (fun x hx => hticks x (List.mem_cons_of_mem _ hx))
        exact ⟨q1, q2.trans m1⟩
    | tick w =>
      cases w with
      | false => exact absurd rfl he1
      | true =>
        obtain ⟨t1, t2, t3, t4, t5, _⟩ := tickStep_true fe fl info s.st s.tick
        obtain ⟨t', s', outs, r1, r2, r3, r4, r5, r6, _⟩ :=
          ih t
            { st := (tickStep fe fl info s.st s.tick true).st
              tick := (tickStep fe fl info s.st s.tick true).tick
              running := (tickStep fe fl info s.st s.tick true).running } t1 hrest
        refine ⟨t', s',
          { toServer := (tickStep fe fl info s.st s.tick true).toServer
            toClient := (tickStep fe fl info s.st s.tick true).toClient } :: outs,
          ?_, r2, r3.trans t2, r4.trans t4, r5.trans t5, ?_, ?_⟩
        · simp only [runSteps, hrun, if_true, r1]
        · intro _
          have := r6 (t3.trans t2.symm)
          exact this.trans t2
        · intro hticks
          have := hticks (.tick true) (List.mem_cons_self _ _)
          simp [Step.isTick] at this

/-- C12 (amended): in a legacy-mode session, let a client MovePlayer packet be the only
movement recorded before a tick: before it, and between it and that tick, neither relay
records a movement of the player (the client relay handles no other MovePlayer; the server
relay handles no MovePlayer, MoveActorAbsolute or MoveActorDelta that names the player), no
relay step panics, every upstream write of an earlier tick succeeded, and no tick lies between
the packet and that tick. Then the run returns, and that tick writes a PlayerAuthInput whose
Delta is the position of the packet minus the spawn position of the game data (component-wise
`float32` subtraction), whose Yaw, HeadYaw and Pitch are those of the packet and whose
Position is the position of the packet, and it writes a NetworkChunkPublisherUpdate at the
integer parts of that position. For a packet at (0, 64, 0), under the IEEE facts of
`FloatEnv.Sound`, the update is at (0, 64, 0), Delta is (0, 0, 0) if the spawn position is
(0, 64, 0), and Delta is (0, 64, 0) if the spawn position is (0, 0, 0). -/
theorem first_move_tick_measures_against_spawn {S B : Type} (env : ChunkEnv S B)
    (fe : FloatEnv) (fl : InputFlags) (acts : PlayerActions) (info : ConnInfo) (t : Tedac)
    (hlegacy : info.oldMovementSystem = true) (pre mid : List Step) (m : MovePlayer)
    (hpre : ∀ e ∈ pre, e ≠ .tick false ∧ Step.recordsMovement info e = false ∧
      Step.faults info e = false)
    (hmid : ∀ e ∈ mid, e.isTick = false ∧ Step.recordsMovement info e = false ∧
      Step.faults info e = false) :
    ∃ (t' : Tedac) (s' : Session) (outs : List TickOutput) (out : TickOutput)
        (upd : NetworkChunkPublisherUpdate),
      runSteps env fe fl acts info t (Session.new info)
          (pre ++ .client (.movePlayer m) :: (mid ++ [.tick true]))
        = some (t', s', outs ++ [out]) ∧
      out.toServer.Delta = Vec3.Sub fe m.Position info.data.PlayerPosition ∧
      out.toServer.Yaw = m.Yaw ∧
      out.toServer.HeadYaw = m.Yaw ∧
      out.toServer.Pitch = m.Pitch ∧
      out.toServer.Position = m.Position ∧
      out.toClient = some upd ∧
      upd.Position = (fe.toInt32 m.Position.x, fe.toInt32 m.Position.y, fe.toInt32 m.Position.z) ∧
      (fe.Sound → m.Position = { x := 0, y := 1115684864, z := 0 } →
        upd.Position = (0, 64, 0) ∧
        (info.data.PlayerPosition = { x := 0, y := 1115684864, z := 0 } →
          out.toServer.Delta = { x := 0, y := 0, z := 0 }) ∧
        (info.data.PlayerPosition = { x := 0, y := 0, z := 0 } →
          out.toServer.Delta = { x := 0, y := 1115684864, z := 0 })) := by
  -- the steps before the packet
  obtain ⟨t1, s1, o1, r1, run1, pos1, _, _, last1, _⟩ :=
    runSteps_quiet env fe fl acts info t (Session.new info) pre hlegacy hpre
  have hlast1 : s1.st.lastPos = info.data.PlayerPosition := last1 rfl
  -- the packet
  have c1 : (clientToServer acts info s1.st (.movePlayer m)).1.pos = m.Position := by
    simp [clientToServer, hlegacy]
  have c2 : (clientToServer acts info s1.st (.movePlayer m)).1.yaw = m.Yaw := by
    simp [clientToServer, hlegacy]
  have c3 : (clientToServer acts info s1.st (.movePlayer m)).1.pitch = m.Pitch := by
    simp [clientToServer, hlegacy]
  have c4 := clientToServer_lastPos acts info s1.st (.movePlayer m)
  -- the steps between the packet and the tick
  obtain ⟨t3, s3, o3, r3, run3, pos3, yaw3, pitch3, _, quiet3⟩ :=
    runSteps_quiet env fe fl acts info t1
      { s1 with st := (clientToServer acts info s1.st (.movePlayer m)).1 } mid run1
      (fun e he => ⟨fun h => by
        have := (hmid e he).1
        rw [h] at this
        exact absurd this (by decide), (hmid e he).2⟩)
  obtain ⟨ho3, last3⟩ := quiet3 (fun e he => (hmid e he).1)
  subst ho3
  have hpos : s3.st.pos = m.Position := pos3.trans c1
  have hyaw : s3.st.yaw = m.Yaw := yaw3.trans c2
  have hpitch : s3.st.pitch = m.Pitch := pitch3.trans c3
  have hlast : s3.st.lastPos = info.data.PlayerPosition := (last3.trans c4).trans hlast1
  -- the tick
  obtain ⟨_, _, _, _, _, k6, k7, k8, k9, k10, k11⟩ := tickStep_true fe fl info s3.st s3.tick
  have r4 : runSteps env fe fl acts info t3 s3 [.tick true]
      = some (t3,
          { st := (tickStep fe fl info s3.st s3.tick true).st
            tick := (tickStep fe fl info s3.st s3.tick true).tick
            running := (tickStep fe fl info s3.st s3.tick true).running },
          [{ toServer := (tickStep fe fl info s3.st s3.tick true).toServer
             toClient := (tickStep fe fl info s3.st s3.tick true).toClient }]) := by
    simp only [runSteps, run3, if_true]
  have r5 := runSteps_append env fe fl acts info t1
    { s1 with st := (clientToServer acts info s1.st (.movePlayer m)).1 } mid [.tick true]
    t3 s3 [] r3 _ _ _ r4
  have r6 : runSteps env fe fl acts info t1 s1 (.client (.movePlayer m) :: (mid ++ [.tick true]))
      = some (t3,
          { st := (tickStep fe fl info s3.st s3.tick true).st
            tick := (tickStep fe fl info s3.st s3.tick true).tick
            running := (tickStep fe fl info s3.st s3.tick true).running },
          [] ++ [{ toServer := (tickStep fe fl info s3.st s3.tick true).toServer
                   toClient := (tickStep fe fl info s3.st s3.tick true).toClient }]) := by
    simp only [runSteps]
    exact r5
  have r7 := runSteps_append env fe fl acts info t (Session.new info) pre
    (.client (.movePlayer m) :: (mid ++ [.tick true])) t1 s1 o1 r1 _ _ _ r6
  have hdelta : (tickStep fe fl info s3.st s3.tick true).toServer.Delta
      = Vec3.Sub fe m.Position info.data.PlayerPosition := by
    rw [k6, hpos, hlast]
  refine ⟨t3,
    { st := (tickStep fe fl info s3.st s3.tick true).st
      tick := (tickStep fe fl info s3.st s3.tick true).tick
      running := (tickStep fe fl info s3.st s3.tick true).running },
    o1,
    { toServer := (tickStep fe fl info s3.st s3.tick true).toServer
      toClient := (tickStep fe fl info s3.st s3.tick true).toClient },
    { Position := (fe.toInt32 m.Position.x, fe.toInt32 m.Position.y, fe.toInt32 m.Position.z)
      Radius := ((info.data.ChunkRadius % 4294967296).toNat * 16) % 4294967296 },
    ?_, hdelta, ?_, ?_, ?_, ?_, ?_, ?_, ?_⟩
  · simpa using r7
  · exact k7.trans hyaw
  · exact k8.trans hyaw
  · exact k9.trans hpitch
  · exact k10.trans hpos
  · rw [k11, hpos]
  · rfl
  · intro hfe hm
    have hfin0 : IsFinite 0 := by unfold IsFinite; decide
    have hfin64 : IsFinite 1115684864 := by unfold IsFinite; decide
    refine ⟨?_, ?_, ?_⟩
    · rw [hm]
      simp only [hfe.toInt32_zero, hfe.toInt32_sixty_four]
    · intro hs
      rw [hdelta, hm, hs]
      simp only [Vec3.Sub, hfe.sub_self 0 hfin0, hfe.sub_self 1115684864 hfin64]
    · intro hs
      rw [hdelta, hm, hs]
      simp only [Vec3.Sub, hfe.sub_zero 0 hfin0, hfe.sub_zero 1115684864 hfin64]

/-- Witness of `first_move_tick_measures_against_spawn`: the server moves another entity, a
tick, the sample MovePlayer packet from the client, the server moves the other entity again,
a jump, and the next tick. -/
theorem first_move_tick_measures_against_spawn_witness :
    (ConnInfo.new true toyGameData).oldMovementSystem = true ∧
    (∀ e ∈ [Step.server (.movePlayer toyServerMove), .tick true],
      e ≠ .tick false ∧ Step.recordsMovement (ConnInfo.new true toyGameData) e = false ∧
        Step.faults (ConnInfo.new true toyGameData) e = false) ∧
    (∀ e ∈ [Step.server (.movePlayer toyServerMove),
        .client
          (.playerAction
            { EntityRuntimeID := 1, ActionType := 8, BlockPosition := (0, 0, 0),
              ResultPosition := (0, 0, 0), BlockFace := 0 })],
      e.isTick = false ∧ Step.recordsMovement (ConnInfo.new true toyGameData) e = false ∧
        Step.faults (ConnInfo.new true toyGameData) e = false) ∧
    ∃ (t' : Tedac) (s' : Session) (outs : List TickOutput) (out : TickOutput)
        (upd : NetworkChunkPublisherUpdate),
      runSteps toyEnv toyFloatEnv toyFlags toyActions (ConnInfo.new true toyGameData) toyTedac
          (Session.new (ConnInfo.new true toyGameData))
          ([Step.server (.movePlayer toyServerMove), .tick true]
            ++ .client (.movePlayer toyMovePlayer)
              :: ([Step.server (.movePlayer toyServerMove),
                    .client
                      (.playerAction
                        { EntityRuntimeID := 1, ActionType := 8, BlockPosition := (0, 0, 0),
                          ResultPosition := (0, 0, 0), BlockFace := 0 })]
                ++ [.tick true]))
        = some (t', s', outs ++ [out]) ∧
      out.toServer.Delta
        = Vec3.Sub toyFloatEnv toyMovePlayer.Position
          (ConnInfo.new true toyGameData).data.PlayerPosition ∧
      out.toServer.Yaw = toyMovePlayer.Yaw ∧
      out.toServer.HeadYaw = toyMovePlayer.Yaw ∧
      out.toServer.Pitch = toyMovePlayer.Pitch ∧
      out.toServer.Position = toyMovePlayer.Position ∧
      out.toClient = some upd ∧
      upd.Position
        = (toyFloatEnv.toInt32 toyMovePlayer.Position.x,
            toyFloatEnv.toInt32 toyMovePlayer.Position.y,
            toyFloatEnv.toInt32 toyMovePlayer.Position.z) ∧
      (toyFloatEnv.Sound → toyMovePlayer.Position = { x := 0, y := 1115684864, z := 0 } →
        upd.Position = (0, 64, 0) ∧
        ((ConnInfo.new true toyGameData).data.PlayerPosition
            = { x := 0, y := 1115684864, z := 0 } →
          out.toServer.Delta = { x := 0, y := 0, z := 0 }) ∧
        ((ConnInfo.new true toyGameData).data.PlayerPosition = { x := 0, y := 0, z := 0 } →
          out.toServer.Delta = { x := 0, y := 1115684864, z := 0 })) :=
  ⟨rfl, by decide, by decide,
    first_move_tick_measures_against_spawn toyEnv toyFloatEnv toyFlags toyActions
      (ConnInfo.new true toyGameData) toyTedac rfl
      [Step.server (.movePlayer toyServerMove), .tick true]
      [Step.server (.movePlayer toyServerMove),
        .client
          (.playerAction
            { EntityRuntimeID := 1, ActionType := 8, BlockPosition := (0, 0, 0),
              ResultPosition := (0, 0, 0), BlockFace := 0 })]
      toyMovePlayer (by decide) (by decide)⟩

end bridge

end Tedac
